import Mathlib

/-!
# Verification of the `paginated-list` infinite-scroll component

A shallow embedding of `src/assets/paginated-list.js` (the `PaginatedList`
custom element) together with proofs about it.

Modelling conventions, shared by every definition below:

* JavaScript numbers appearing as page indices are integers or `NaN`
  (`Number(attr)` on a missing or non-numeric attribute yields `NaN`, and
  `NaN ± 1 = NaN`).  They are embedded as `JSNum`, with the JS comparison
  semantics where any comparison against `NaN` is false.
* The cached section HTML of a page is kept as its parse result: `none`
  models a fragment in which `DOMParser` + `querySelector('[ref="grid"]')`
  finds no grid (the render aborts), `some cs` models a grid whose
  card children (`:scope > [ref="cards[]"]`) are `cs` in document order.
  Parsing is deterministic, so storing the parse result instead of the raw
  string loses nothing.
* The event-loop behaviour of the `async` methods is embedded as a step
  function over an explicit component state: each step runs one synchronous
  segment of JS (up to the next `await` or to completion).  Microtask
  ordering makes the continuation of a resolved `await` run before any
  further task, so a network resolution step also runs the render
  continuation it wakes up, atomically.
* Aspect-ratio strings are computed over `ℚ` with round-half-up at the
  third decimal, modelling `Number.prototype.toFixed(3)` on the exact
  ratio of the two natural dimensions.
-/

namespace PaginatedListSpec

/-- A JavaScript number as used for page indices: an integer or `NaN`. -/
inductive JSNum where
  | nan : JSNum
  | int : Int → JSNum
deriving DecidableEq

/-- JS `<`: false whenever either side is `NaN`. -/
def jlt : JSNum → JSNum → Bool
  | JSNum.int a, JSNum.int b => decide (a < b)
  | _, _ => false

/-- JS `>`: false whenever either side is `NaN`. -/
def jgt : JSNum → JSNum → Bool
  | JSNum.int a, JSNum.int b => decide (b < a)
  | _, _ => false

/-- JS `x + 1`; `NaN + 1 = NaN`. -/
def jadd1 : JSNum → JSNum
  | JSNum.nan => JSNum.nan
  | JSNum.int n => JSNum.int (n + 1)

/-- JS `x - 1`; `NaN - 1 = NaN`. -/
def jsub1 : JSNum → JSNum
  | JSNum.nan => JSNum.nan
  | JSNum.int n => JSNum.int (n - 1)

/-- JS `x.toString()` for a page number (`(NaN).toString() = "NaN"`). -/
def jstr : JSNum → String
  | JSNum.nan => "NaN"
  | JSNum.int n => toString n

/-- Digits of an integer-valued attribute string; `none` when some
character is not a decimal digit or the string is empty. -/
def decDigits : List Char → Option Nat
  | [] => none
  | cs => go 0 cs
where
  go (acc : Nat) : List Char → Option Nat
    | [] => some acc
    | c :: rest => if c.isDigit then go (acc * 10 + (c.toNat - 48)) rest else none

/-- JS `Number(s)` restricted to the attribute strings this component
meets: `""` is `0`, a (possibly negated) run of decimal digits is that
integer, anything else is `NaN`. -/
def numberOfString (s : String) : JSNum :=
  if s = "" then JSNum.int 0
  else
    match s.data with
    | '-' :: rest =>
      match decDigits rest with
      | some n => JSNum.int (-(n : Int))
      | none => JSNum.nan
    | ds =>
      match decDigits ds with
      | some n => JSNum.int (n : Int)
      | none => JSNum.nan

/-- JS `Number(x)` for an attribute read: a missing attribute is
`undefined`/`null`, and `Number(undefined) = NaN` (`dataset` access) while
the code paths below only feed present-or-missing strings through this. -/
def numberOfAttr : Option String → JSNum
  | none => JSNum.nan
  | some s => numberOfString s

/-! ## Aspect-ratio normalizer (`#getSafeImageAspectRatio` and friends) -/

/-- The three digit characters of `n % 1000`, most significant first.
Used to render the fractional part of `toFixed(3)` with its leading
zeroes. -/
def threeDigits (n : Nat) : String :=
  String.mk [Nat.digitChar (n / 100 % 10), Nat.digitChar (n / 10 % 10), Nat.digitChar (n % 10)]

/-- `q.toFixed(3)` for a non-negative rational: round half up at the third
decimal and print with exactly three digits after the point. -/
def toFixed3 (q : ℚ) : String :=
  let millis : Nat := ⌊q * 1000 + 1 / 2⌋₊
  toString (millis / 1000) ++ "." ++ threeDigits (millis % 1000)

/-- `Math.min` on (non-`NaN`) numbers. -/
def jsMin (a b : ℚ) : ℚ := if a ≤ b then a else b

/-- `Math.max` on (non-`NaN`) numbers. -/
def jsMax (a b : ℚ) : ℚ := if a ≤ b then b else a

theorem jsMin_eq_min (a b : ℚ) : jsMin a b = min a b := by
  unfold jsMin; rw [min_def]

theorem jsMax_eq_max (a b : ℚ) : jsMax a b = max a b := by
  unfold jsMax
  rcases le_total a b with h | h
  · rw [if_pos h, max_eq_right h]
  · rcases eq_or_lt_of_le h with rfl | hlt
    · simp
    · rw [if_neg (not_le.mpr hlt), max_eq_left h]

/-- `#getSafeImageAspectRatio(width, height)`:
`Math.max(0.1, Math.min(10, width / height)).toFixed(3)`. -/
def getSafeImageAspectRatio (width height : ℕ) : String :=
  let rawRatio : ℚ := (width : ℚ) / (height : ℚ)
  toFixed3 (jsMax (1 / 10) (jsMin 10 rawRatio))

/-- The clamp of the spec's words: `width / height` clamped to the
interval `[0.1, 10]`. -/
def clampInterval (q : ℚ) : ℚ :=
  if q < 1 / 10 then 1 / 10 else if 10 < q then 10 else q

theorem max_min_eq_clampInterval (q : ℚ) :
    max (1 / 10) (min 10 q) = clampInterval q := by
  unfold clampInterval
  rcases lt_or_le q (1 / 10) with h1 | h1
  · rw [if_pos h1, min_eq_right (le_of_lt (lt_trans h1 (by norm_num))), max_eq_left (le_of_lt h1)]
  · rw [if_neg (not_lt.mpr h1)]
    rcases lt_or_le (10 : ℚ) q with h2 | h2
    · rw [if_pos h2, min_eq_left (le_of_lt h2), max_eq_right (by norm_num)]
    · rw [if_neg (not_lt.mpr h2), min_eq_right h2, max_eq_right h1]

/-!
Rational arithmetic does not reduce inside the Lean kernel (its
normalization runs `Nat.gcd`), so alongside the source-shaped `ℚ`
definition we keep a cross-multiplied version over `ℕ` and prove the two
agree whenever the height is positive — which the caller's
`if (!img.naturalWidth || !img.naturalHeight) return` guard ensures.
Concrete evaluations go through the `ℕ` version.
-/

/-- `⌊(num / den) * 1000 + 1/2⌋` computed over `ℕ`. -/
def ratioMillis (num den : ℕ) : ℕ := (2000 * num + den) / (2 * den)

/-- `toFixed3 ((num : ℚ) / den)` computed over `ℕ`. -/
def toFixed3Frac (num den : ℕ) : String :=
  toString (ratioMillis num den / 1000) ++ "." ++ threeDigits (ratioMillis num den % 1000)

/-- `getSafeImageAspectRatio` computed over `ℕ`: the clamp comparisons
are cross-multiplied. -/
def getSafeImageAspectRatioFrac (width height : ℕ) : String :=
  if width * 10 < height then toFixed3Frac 1 10
  else if height * 10 < width then toFixed3Frac 10 1
  else toFixed3Frac width height

theorem toFixed3_frac (num den : ℕ) (hden : 0 < den) :
    toFixed3 ((num : ℚ) / (den : ℚ)) = toFixed3Frac num den := by
  have hd : (den : ℚ) ≠ 0 := Nat.cast_ne_zero.mpr (Nat.pos_iff_ne_zero.mp hden)
  have key : (num : ℚ) / (den : ℚ) * 1000 + 1 / 2
      = ((2000 * num + den : ℕ) : ℚ) / ((2 * den : ℕ) : ℚ) := by
    push_cast
    field_simp
    ring
  unfold toFixed3 toFixed3Frac ratioMillis
  rw [key, Nat.floor_div_eq_div]

theorem getSafeImageAspectRatio_frac (width height : ℕ) (hh : 0 < height) :
    getSafeImageAspectRatio width height = getSafeImageAspectRatioFrac width height := by
  have hq : (0 : ℚ) < (height : ℚ) := by exact_mod_cast hh
  unfold getSafeImageAspectRatio getSafeImageAspectRatioFrac
  show toFixed3 (jsMax (1 / 10) (jsMin 10 ((width : ℚ) / (height : ℚ))))
      = if width * 10 < height then toFixed3Frac 1 10
        else if height * 10 < width then toFixed3Frac 10 1 else toFixed3Frac width height
  rw [jsMax_eq_max, jsMin_eq_min, max_min_eq_clampInterval]
  unfold clampInterval
  have e1 : width * 10 < height ↔ (width : ℚ) / (height : ℚ) < 1 / 10 := by
    rw [div_lt_div_iff₀ hq (by norm_num : (0 : ℚ) < 10)]
    constructor
    · intro hc
      have : (width : ℚ) * 10 < 1 * (height : ℚ) := by
        have : (width : ℚ) * 10 < (height : ℚ) := by exact_mod_cast hc
        linarith
      exact this
    · intro hc
      have : (width : ℚ) * 10 < (height : ℚ) := by linarith
      exact_mod_cast this
  have e2 : height * 10 < width ↔ (10 : ℚ) < (width : ℚ) / (height : ℚ) := by
    rw [lt_div_iff₀ hq]
    constructor
    · intro hc
      have : (height : ℚ) * 10 < (width : ℚ) := by exact_mod_cast hc
      linarith
    · intro hc
      have : (height : ℚ) * 10 < (width : ℚ) := by linarith
      exact_mod_cast this
  rcases lt_or_le ((width : ℚ) / (height : ℚ)) (1 / 10) with h1 | h1
  · rw [if_pos h1, if_pos (e1.mpr h1),
      show (1 : ℚ) / 10 = ((1 : ℕ) : ℚ) / ((10 : ℕ) : ℚ) by norm_num,
      toFixed3_frac 1 10 (by norm_num)]
  · rw [if_neg (not_lt.mpr h1), if_neg (fun hc => absurd (e1.mp hc) (not_lt.mpr h1))]
    rcases lt_or_le (10 : ℚ) ((width : ℚ) / (height : ℚ)) with h2 | h2
    · rw [if_pos h2, if_pos (e2.mpr h2),
        show (10 : ℚ) = ((10 : ℕ) : ℚ) / ((1 : ℕ) : ℚ) by norm_num,
        toFixed3_frac 10 1 (by norm_num)]
    · rw [if_neg (not_lt.mpr h2), if_neg (fun hc => absurd (e2.mp hc) (not_lt.mpr h2)),
        toFixed3_frac width height hh]

/-! ## Galleries and the two normalization modes -/

/-- An `<img>` as the normalizer sees it: whether it had finished loading
when the batch was processed (`complete`), and its natural dimensions. -/
structure Img where
  complete : Bool
  naturalWidth : Nat
  naturalHeight : Nat
deriving DecidableEq

/-- A `.card-gallery` element: its `data-product-id` attribute, its first
`<img>` (if any), the `data-aspect-ratio-applied` marker, the
`--gallery-aspect-ratio` custom property, and the `aspectRatio` style of
each `.product-media-container` inside it. -/
structure Gallery where
  productId : Option String
  img : Option Img
  processed : Bool
  galleryProp : Option String
  containerRatios : List (Option String)
deriving DecidableEq

/-- JS truthiness of the `data-product-id` attribute: `null` and `""` are
falsy, so `if (productId)` treats them alike. -/
def truthyPid : Option String → Option String
  | none => none
  | some s => if s = "" then none else some s

/-- `#applyAspectRatioToGallery(gallery, aspectRatio)`: set the custom
property, set `aspectRatio` on every media container, and mark the gallery
processed. -/
def applyAspectRatioToGallery (g : Gallery) (aspectRatio : String) : Gallery :=
  { g with
    galleryProp := some aspectRatio
    containerRatios := g.containerRatios.map (fun _ => some aspectRatio)
    processed := true }

/-- `PaginatedList.ASPECT_RATIOS`, the static lookup object. -/
def ASPECT_RATIOS : List (String × String) :=
  [("square", "1"), ("portrait", "0.8"), ("landscape", "1.778")]

/-- `#getAspectRatioValue(ratioSetting)`: the table value `|| null`. -/
def getAspectRatioValue (ratioSetting : String) : Option String :=
  (ASPECT_RATIOS.find? (fun kv => kv.1 == ratioSetting)).map (fun kv => kv.2)

/-- `#applyFixedAspectRatio()`: for a non-adaptive setting, apply the
constant ratio for the setting to every gallery not yet marked processed.
The guards (`!this.#imageRatioSetting`, unknown setting, empty selection)
all leave the galleries unchanged. -/
def applyFixedAspectRatio (imageRatioSetting : Option String) (gs : List Gallery) :
    List Gallery :=
  match imageRatioSetting with
  | none => gs
  | some st =>
    match getAspectRatioValue st with
    | none => gs
    | some aspectRatio =>
      gs.map (fun g => if g.processed then g else applyAspectRatioToGallery g aspectRatio)

/-! ## Adaptive mode (`#fixAdaptiveAspectRatios`) -/

/-- Replace the element at index `i` (no-op when out of range). -/
def modifyIdx {α : Type} : List α → Nat → (α → α) → List α
  | [], _, _ => []
  | a :: as, 0, f => f a :: as
  | a :: as, n + 1, f => a :: modifyIdx as n f

/-- The `productRatioCache` of one batch: a JS `Map` keyed by product id,
latest `set` wins. -/
def cacheGet (c : List (String × String)) (k : String) : Option String :=
  (c.find? (fun kv => kv.1 == k)).map (fun kv => kv.2)

/-- `productRatioCache.set(k, v)`. -/
def cacheSet (c : List (String × String)) (k v : String) : List (String × String) :=
  (k, v) :: c

/-- The state threaded through one adaptive batch: the galleries, the
per-batch `productRatioCache` (captured by the `load` listeners, so it
outlives the synchronous pass), the indices with a pending one-shot `load`
listener, and — as proof instrumentation — one log entry
`(truthy product id, width, height)` per ratio computation performed. -/
structure AdaptState where
  galleries : List Gallery
  cache : List (String × String)
  pending : List Nat
  compLog : List (Option String × Nat × Nat)
deriving DecidableEq

/-- The `loadAndSetRatio` closure for gallery `i` (captured `img`,
`productId`, `gallery` and the batch cache): bail out on a zero natural
dimension, otherwise compute the ratio, cache it under a truthy product
id, and apply it.  The ratio call stands for `#getSafeImageAspectRatio`;
the `ℕ`-level form is used because the guard has just ensured a positive
height, where `getSafeImageAspectRatio_frac` proves the two agree. -/
def loadAndSetRatio (st : AdaptState) (i : Nat) (productId : Option String) (im : Img) :
    AdaptState :=
  if im.naturalWidth = 0 ∨ im.naturalHeight = 0 then st
  else
    let imgRatio := getSafeImageAspectRatioFrac im.naturalWidth im.naturalHeight
    let st1 := { st with compLog := st.compLog ++ [(truthyPid productId, im.naturalWidth, im.naturalHeight)] }
    let st2 := match truthyPid productId with
      | some p => { st1 with cache := cacheSet st1.cache p imgRatio }
      | none => st1
    { st2 with galleries := modifyIdx st2.galleries i (fun g => applyAspectRatioToGallery g imgRatio) }

/-- One iteration of the `newCardGalleries.forEach` body for index `i`:
skip already-processed galleries (the selector
`.card-gallery:not([data-aspect-ratio-applied])` excludes them), serve a
truthy cached product id from the batch cache, default a gallery without
an `<img>` to ratio `"1"`, run `loadAndSetRatio` at once for a complete
image, and otherwise attach the one-shot `load` listener. -/
def processGallery (st : AdaptState) (i : Nat) : AdaptState :=
  match st.galleries[i]? with
  | none => st
  | some g =>
    if g.processed then st
    else
      match truthyPid g.productId with
      | some pid =>
        match cacheGet st.cache pid with
        | some cached =>
          { st with galleries := modifyIdx st.galleries i (fun g0 => applyAspectRatioToGallery g0 cached) }
        | none => processGalleryImg st i g
      | none => processGalleryImg st i g
where
  /-- The part after the cache check: `gallery.querySelector('img')`,
  the `img.complete` split. -/
  processGalleryImg (st : AdaptState) (i : Nat) (g : Gallery) : AdaptState :=
    match g.img with
    | none =>
      { st with galleries := modifyIdx st.galleries i (fun g0 => applyAspectRatioToGallery g0 "1") }
    | some im =>
      if im.complete then loadAndSetRatio st i g.productId im
      else { st with pending := st.pending ++ [i] }

/-- `#fixAdaptiveAspectRatios()`: walk the unprocessed galleries in
document order with a fresh `productRatioCache`. -/
def fixAdaptiveAspectRatios (gs : List Gallery) : AdaptState :=
  (List.range gs.length).foldl processGallery ⟨gs, [], [], []⟩

/-- A later `load` event for gallery `i`: runs that gallery's
`loadAndSetRatio` closure (against the batch cache it captured) and
consumes the one-shot listener. -/
def loadEvent (st : AdaptState) (i : Nat) : AdaptState :=
  if i ∈ st.pending then
    match st.galleries[i]? with
    | some g =>
      match g.img with
      | some im => { (loadAndSetRatio st i g.productId im) with pending := st.pending.erase i }
      | none => st
    | none => st
  else st

/-- How many ratio computations of the batch belong to product id `pid`. -/
def compCount (st : AdaptState) (pid : String) : Nat :=
  (st.compLog.filter (fun e => e.1 == some pid)).length

/-! ### Helper lemmas for the adaptive batch -/

theorem modifyIdx_length {α : Type} (l : List α) (i : Nat) (f : α → α) :
    (modifyIdx l i f).length = l.length := by
  induction l generalizing i with
  | nil => rfl
  | cons a as ih =>
    cases i with
    | zero => rfl
    | succ n => simpa [modifyIdx] using ih n

theorem getElem?_modifyIdx_ne {α : Type} (l : List α) (i j : Nat) (f : α → α) (h : i ≠ j) :
    (modifyIdx l i f)[j]? = l[j]? := by
  induction l generalizing i j with
  | nil => rfl
  | cons a as ih =>
    cases i with
    | zero =>
      cases j with
      | zero => exact absurd rfl h
      | succ m => simp [modifyIdx]
    | succ n =>
      cases j with
      | zero => simp [modifyIdx]
      | succ m =>
        simp only [modifyIdx, List.getElem?_cons_succ]
        exact ih n m (fun hnm => h (by rw [hnm]))

theorem getElem?_modifyIdx_self {α : Type} (l : List α) (i : Nat) (f : α → α) :
    (modifyIdx l i f)[i]? = (l[i]?).map f := by
  induction l generalizing i with
  | nil => rfl
  | cons a as ih =>
    cases i with
    | zero => simp [modifyIdx]
    | succ n => simpa [modifyIdx] using ih n

theorem cacheGet_set_self (c : List (String × String)) (k v : String) :
    cacheGet (cacheSet c k v) k = some v := by
  unfold cacheGet cacheSet
  simp [List.find?_cons]

theorem cacheGet_set_ne (c : List (String × String)) (k v k' : String) (h : k ≠ k') :
    cacheGet (cacheSet c k v) k' = cacheGet c k' := by
  unfold cacheGet cacheSet
  rw [List.find?_cons_of_neg]
  simp [h]

theorem processGallery_none (st : AdaptState) (i : Nat) (h : st.galleries[i]? = none) :
    processGallery st i = st := by
  unfold processGallery
  rw [h]

theorem processGallery_processed (st : AdaptState) (i : Nat) (g : Gallery)
    (h : st.galleries[i]? = some g) (hp : g.processed = true) :
    processGallery st i = st := by
  unfold processGallery
  rw [h]
  dsimp only
  rw [hp]
  rfl

theorem processGallery_cacheHit (st : AdaptState) (i : Nat) (g : Gallery) (q r : String)
    (h : st.galleries[i]? = some g) (hp : g.processed = false)
    (hq : truthyPid g.productId = some q) (hr : cacheGet st.cache q = some r) :
    processGallery st i
      = { st with galleries :=
            modifyIdx st.galleries i (fun g0 => applyAspectRatioToGallery g0 r) } := by
  unfold processGallery
  rw [h]
  dsimp only
  rw [hp]
  rw [if_neg Bool.false_ne_true]
  rw [hq]
  dsimp only
  rw [hr]

theorem processGallery_cacheMiss (st : AdaptState) (i : Nat) (g : Gallery) (q : String)
    (h : st.galleries[i]? = some g) (hp : g.processed = false)
    (hq : truthyPid g.productId = some q) (hr : cacheGet st.cache q = none) :
    processGallery st i = processGallery.processGalleryImg st i g := by
  unfold processGallery
  rw [h]
  dsimp only
  rw [hp]
  rw [if_neg Bool.false_ne_true]
  rw [hq]
  dsimp only
  rw [hr]

theorem processGallery_noPid (st : AdaptState) (i : Nat) (g : Gallery)
    (h : st.galleries[i]? = some g) (hp : g.processed = false)
    (hq : truthyPid g.productId = none) :
    processGallery st i = processGallery.processGalleryImg st i g := by
  unfold processGallery
  rw [h]
  dsimp only
  rw [hp]
  rw [if_neg Bool.false_ne_true]
  rw [hq]

theorem processGalleryImg_noImg (st : AdaptState) (i : Nat) (g : Gallery)
    (h : g.img = none) :
    processGallery.processGalleryImg st i g
      = { st with galleries :=
            modifyIdx st.galleries i (fun g0 => applyAspectRatioToGallery g0 "1") } := by
  unfold processGallery.processGalleryImg
  rw [h]

theorem processGalleryImg_complete (st : AdaptState) (i : Nat) (g : Gallery) (im : Img)
    (h : g.img = some im) (hc : im.complete = true) :
    processGallery.processGalleryImg st i g = loadAndSetRatio st i g.productId im := by
  unfold processGallery.processGalleryImg
  rw [h]
  dsimp only
  rw [hc]
  rfl

theorem processGalleryImg_incomplete (st : AdaptState) (i : Nat) (g : Gallery) (im : Img)
    (h : g.img = some im) (hc : im.complete = false) :
    processGallery.processGalleryImg st i g = { st with pending := st.pending ++ [i] } := by
  unfold processGallery.processGalleryImg
  rw [h]
  dsimp only
  rw [hc]
  rfl

theorem loadAndSetRatio_pos (st : AdaptState) (i : Nat) (productId : Option String) (im : Img)
    (hw : im.naturalWidth ≠ 0) (hh : im.naturalHeight ≠ 0) :
    loadAndSetRatio st i productId im
      = (let imgRatio := getSafeImageAspectRatioFrac im.naturalWidth im.naturalHeight
         let st1 := { st with
           compLog := st.compLog ++ [(truthyPid productId, im.naturalWidth, im.naturalHeight)] }
         let st2 := match truthyPid productId with
           | some p => { st1 with cache := cacheSet st1.cache p imgRatio }
           | none => st1
         { st2 with galleries :=
             modifyIdx st2.galleries i (fun g => applyAspectRatioToGallery g imgRatio) }) := by
  unfold loadAndSetRatio
  rw [if_neg (by
    intro hcon
    rcases hcon with hcon | hcon
    · exact hw hcon
    · exact hh hcon)]

theorem loadAndSetRatio_pos_pid (st : AdaptState) (i : Nat) (productId : Option String)
    (im : Img) (p : String)
    (hw : im.naturalWidth ≠ 0) (hh : im.naturalHeight ≠ 0)
    (hq : truthyPid productId = some p) :
    loadAndSetRatio st i productId im
      = { st with
          compLog := st.compLog ++ [(some p, im.naturalWidth, im.naturalHeight)]
          cache := cacheSet st.cache p
            (getSafeImageAspectRatioFrac im.naturalWidth im.naturalHeight)
          galleries := modifyIdx st.galleries i (fun g =>
            applyAspectRatioToGallery g
              (getSafeImageAspectRatioFrac im.naturalWidth im.naturalHeight)) } := by
  rw [loadAndSetRatio_pos st i productId im hw hh]
  dsimp only
  rw [hq]

theorem loadAndSetRatio_pos_noPid (st : AdaptState) (i : Nat) (productId : Option String)
    (im : Img)
    (hw : im.naturalWidth ≠ 0) (hh : im.naturalHeight ≠ 0)
    (hq : truthyPid productId = none) :
    loadAndSetRatio st i productId im
      = { st with
          compLog := st.compLog ++ [(none, im.naturalWidth, im.naturalHeight)]
          galleries := modifyIdx st.galleries i (fun g =>
            applyAspectRatioToGallery g
              (getSafeImageAspectRatioFrac im.naturalWidth im.naturalHeight)) } := by
  rw [loadAndSetRatio_pos st i productId im hw hh]
  dsimp only
  rw [hq]

theorem filterLen_append_one {α : Type} (p : α → Bool) (l : List α) (e : α) :
    ((l ++ [e]).filter p).length
      = (l.filter p).length + (if p e then 1 else 0) := by
  rw [List.filter_append]
  cases h : p e <;> simp [List.filter_cons, h]

/-- The galleries of one batch that the C8 claim pairs up: carrying the
(truthy) product id `pid` and not yet marked processed. -/
def pidTarget (pid : String) (g : Gallery) : Prop :=
  truthyPid g.productId = some pid ∧ g.processed = false

/-- The invariant of the adaptive pass, after the first `k` galleries
have been visited: untouched tail, and — for the fixed product id `pid` —
either no target gallery has been visited yet (cold cache, no
computation), or the cache holds the single computed ratio `r0`, exactly
one computation for `pid` has happened, and every visited target gallery
has `r0` applied. -/
structure PassInv (gs : List Gallery) (pid : String) (k : Nat) (st : AdaptState) : Prop where
  untouched : ∀ j, k ≤ j → st.galleries[j]? = gs[j]?
  main :
    ((∀ j g, j < k → gs[j]? = some g → ¬pidTarget pid g)
        ∧ cacheGet st.cache pid = none ∧ compCount st pid = 0)
    ∨ (∃ r0, cacheGet st.cache pid = some r0 ∧ compCount st pid = 1
        ∧ ∀ j g, j < k → gs[j]? = some g → pidTarget pid g →
            (st.galleries[j]?).map Gallery.galleryProp = some (some r0))

theorem passInv_start (gs : List Gallery) (pid : String) :
    PassInv gs pid 0 ⟨gs, [], [], []⟩ := by
  refine ⟨fun j _ => rfl, Or.inl ⟨fun j g hj _ => absurd hj (Nat.not_lt_zero j), rfl, rfl⟩⟩

theorem passInv_step (gs : List Gallery) (pid : String) (k : Nat) (st : AdaptState)
    (hcomp : ∀ (j : Nat) (g : Gallery), gs[j]? = some g → pidTarget pid g →
      ∃ im, g.img = some im ∧ im.complete = true
        ∧ im.naturalWidth ≠ 0 ∧ im.naturalHeight ≠ 0)
    (hinv : PassInv gs pid k st) :
    PassInv gs pid (k + 1) (processGallery st k) := by
  have hk : st.galleries[k]? = gs[k]? := hinv.untouched k (le_refl k)
  -- a generic finisher for the steps whose `k`-th gallery is not a target
  have finish : ∀ st' : AdaptState,
      (∀ j, j ≠ k → st'.galleries[j]? = st.galleries[j]?) →
      cacheGet st'.cache pid = cacheGet st.cache pid →
      compCount st' pid = compCount st pid →
      (∀ g0, gs[k]? = some g0 → ¬pidTarget pid g0) →
      PassInv gs pid (k + 1) st' := by
    intro st' hgal hcache hcc hnt
    refine ⟨fun j hj => ((hgal j (by omega)).trans (hinv.untouched j (by omega))), ?_⟩
    rcases hinv.main with ⟨hA, hc, hn⟩ | ⟨r0, hc, hn, hp⟩
    · refine Or.inl ⟨?_, hcache.trans hc, hcc.trans hn⟩
      intro j g hj hg
      rcases Nat.lt_succ_iff_lt_or_eq.mp hj with h | rfl
      · exact hA j g h hg
      · exact hnt g hg
    · refine Or.inr ⟨r0, hcache.trans hc, hcc.trans hn, ?_⟩
      intro j g hj hg ht
      rcases Nat.lt_succ_iff_lt_or_eq.mp hj with h | rfl
      · rw [hgal j (by omega)]
        exact hp j g h hg ht
      · exact absurd ht (hnt g hg)
  cases hgk : gs[k]? with
  | none =>
    rw [processGallery_none st k (hk.trans hgk)]
    exact finish st (fun _ _ => rfl) rfl rfl
      (fun g hg => by rw [hgk] at hg; exact Option.noConfusion hg)
  | some g =>
    have hk' : st.galleries[k]? = some g := hk.trans hgk
    cases hproc : g.processed with
    | true =>
      rw [processGallery_processed st k g hk' hproc]
      refine finish st (fun _ _ => rfl) rfl rfl ?_
      intro g0 hg0 ht
      rw [hgk] at hg0
      cases hg0
      rw [ht.2] at hproc
      exact Bool.noConfusion hproc
    | false =>
      cases hq : truthyPid g.productId with
      | none =>
        have hnt : ∀ g0, gs[k]? = some g0 → ¬pidTarget pid g0 := by
          intro g0 hg0 ht
          rw [hgk] at hg0
          cases hg0
          have hx := ht.1
          rw [hq] at hx
          exact Option.noConfusion hx
        rw [processGallery_noPid st k g hk' hproc hq]
        cases himg : g.img with
        | none =>
          rw [processGalleryImg_noImg st k g himg]
          exact finish _
            (fun j hj => getElem?_modifyIdx_ne st.galleries k j _ (fun h => hj h.symm))
            rfl rfl hnt
        | some im =>
          cases hcm : im.complete with
          | false =>
            rw [processGalleryImg_incomplete st k g im himg hcm]
            exact finish _ (fun _ _ => rfl) rfl rfl hnt
          | true =>
            rw [processGalleryImg_complete st k g im himg hcm]
            by_cases hwz : im.naturalWidth = 0 ∨ im.naturalHeight = 0
            · unfold loadAndSetRatio
              rw [if_pos hwz]
              exact finish st (fun _ _ => rfl) rfl rfl hnt
            · push_neg at hwz
              rw [loadAndSetRatio_pos_noPid st k g.productId im hwz.1 hwz.2 hq]
              refine finish _
                (fun j hj => getElem?_modifyIdx_ne st.galleries k j _ (fun h => hj h.symm))
                rfl ?_ hnt
              unfold compCount
              dsimp only
              rw [filterLen_append_one]
              simp
      | some q =>
        by_cases hqp : q = pid
        · -- the k-th gallery is a target
          subst hqp
          have htk : pidTarget q g := ⟨hq, hproc⟩
          rcases hinv.main with ⟨hA, hc, hn⟩ | ⟨r0, hc, hn, hp⟩
          · -- cold cache: this is the first target, it computes and caches
            rw [processGallery_cacheMiss st k g q hk' hproc hq hc]
            obtain ⟨im, himg, hcm, hw0, hh0⟩ := hcomp k g hgk htk
            rw [processGalleryImg_complete st k g im himg hcm]
            rw [loadAndSetRatio_pos_pid st k g.productId im q hw0 hh0 hq]
            refine ⟨?_, Or.inr ⟨getSafeImageAspectRatioFrac im.naturalWidth im.naturalHeight,
              ?_, ?_, ?_⟩⟩
            · intro j hj
              dsimp only
              rw [getElem?_modifyIdx_ne st.galleries k j _ (by omega)]
              exact hinv.untouched j (by omega)
            · exact cacheGet_set_self st.cache q _
            · unfold compCount
              dsimp only
              rw [filterLen_append_one]
              unfold compCount at hn
              rw [hn]
              simp
            · intro j g0 hj hg0 ht
              rcases Nat.lt_succ_iff_lt_or_eq.mp hj with h | rfl
              · exact absurd ht (hA j g0 h hg0)
              · dsimp only
                rw [getElem?_modifyIdx_self, hk']
                rfl
          · -- warm cache: the target reads the cached ratio
            rw [processGallery_cacheHit st k g q r0 hk' hproc hq hc]
            refine ⟨?_, Or.inr ⟨r0, hc, hn, ?_⟩⟩
            · intro j hj
              dsimp only
              rw [getElem?_modifyIdx_ne st.galleries k j _ (by omega)]
              exact hinv.untouched j (by omega)
            · intro j g0 hj hg0 ht
              rcases Nat.lt_succ_iff_lt_or_eq.mp hj with h | rfl
              · dsimp only
                rw [getElem?_modifyIdx_ne st.galleries k j _ (by omega)]
                exact hp j g0 h hg0 ht
              · dsimp only
                rw [getElem?_modifyIdx_self, hk']
                rfl
        · -- a different product id: `pid`'s cache slot and count are untouched
          have hnt : ∀ g0, gs[k]? = some g0 → ¬pidTarget pid g0 := by
            intro g0 hg0 ht
            rw [hgk] at hg0
            cases hg0
            have hx := ht.1
            rw [hq] at hx
            exact hqp (Option.some_injective _ hx)
          cases hcq : cacheGet st.cache q with
          | some r =>
            rw [processGallery_cacheHit st k g q r hk' hproc hq hcq]
            exact finish _
              (fun j hj => getElem?_modifyIdx_ne st.galleries k j _ (fun h => hj h.symm))
              rfl rfl hnt
          | none =>
            rw [processGallery_cacheMiss st k g q hk' hproc hq hcq]
            cases himg : g.img with
            | none =>
              rw [processGalleryImg_noImg st k g himg]
              exact finish _
                (fun j hj => getElem?_modifyIdx_ne st.galleries k j _ (fun h => hj h.symm))
                rfl rfl hnt
            | some im =>
              cases hcm : im.complete with
              | false =>
                rw [processGalleryImg_incomplete st k g im himg hcm]
                exact finish _ (fun _ _ => rfl) rfl rfl hnt
              | true =>
                rw [processGalleryImg_complete st k g im himg hcm]
                by_cases hwz : im.naturalWidth = 0 ∨ im.naturalHeight = 0
                · unfold loadAndSetRatio
                  rw [if_pos hwz]
                  exact finish st (fun _ _ => rfl) rfl rfl hnt
                · push_neg at hwz
                  rw [loadAndSetRatio_pos_pid st k g.productId im q hwz.1 hwz.2 hq]
                  refine finish _
                    (fun j hj => getElem?_modifyIdx_ne st.galleries k j _ (fun h => hj h.symm))
                    (cacheGet_set_ne st.cache q _ pid hqp) ?_ hnt
                  unfold compCount
                  dsimp only
                  rw [filterLen_append_one]
                  have : ((some q, im.naturalWidth, im.naturalHeight).1 == some pid) = false := by
                    simp [hqp]
                  rw [this]
                  simp

theorem passInv_run (gs : List Gallery) (pid : String) (k : Nat)
    (hcomp : ∀ (j : Nat) (g : Gallery), gs[j]? = some g → pidTarget pid g →
      ∃ im, g.img = some im ∧ im.complete = true
        ∧ im.naturalWidth ≠ 0 ∧ im.naturalHeight ≠ 0) :
    PassInv gs pid k ((List.range k).foldl processGallery ⟨gs, [], [], []⟩) := by
  induction k with
  | zero => exact passInv_start gs pid
  | succ n ih =>
    rw [List.range_succ, List.foldl_append]
    exact passInv_step gs pid n _ hcomp ih

/-! ## C8 — one shared product id within one batch -/

/-- The C8 counterexample batch, first gallery: product id `"A"`, image
still loading (it will be 1600×900 when its `load` event fires). -/
def c8FirstGallery : Gallery :=
  { productId := some "A", img := some ⟨false, 1600, 900⟩, processed := false,
    galleryProp := none, containerRatios := [none] }

/-- The C8 counterexample batch, second gallery: product id `"A"`, image
already complete at 800×800. -/
def c8SecondGallery : Gallery :=
  { productId := some "A", img := some ⟨true, 800, 800⟩, processed := false,
    galleryProp := none, containerRatios := [none] }

/-- The batch run followed by the first gallery's `load` event. -/
def c8Final : AdaptState :=
  loadEvent (fixAdaptiveAspectRatios [c8FirstGallery, c8SecondGallery]) 0

/-- C8 counterexample: two galleries of one batch share product id `"A"`,
yet they end with different aspect-ratio strings (`"1.778"` vs
`"1.000"`), and the ratio for `"A"` is computed from image dimensions
twice — the first gallery's image was still loading when the batch ran,
so its `loadAndSetRatio` fired later and never consulted the cache the
second gallery had filled. -/
theorem C8_counterexample :
    (c8Final.galleries[0]?).map Gallery.galleryProp = some (some "1.778")
    ∧ (c8Final.galleries[1]?).map Gallery.galleryProp = some (some "1.000")
    ∧ compCount c8Final "A" = 2 := by
  decide

/-- C8 amended: within one batch, when every unprocessed gallery carrying
a given product id has an image that is already complete with positive
natural dimensions, any two such galleries receive the identical
aspect-ratio string and the ratio for that product id is computed from
image dimensions exactly once (the later gallery reads the per-batch
cache). -/
theorem C8_amended_complete_images (gs : List Gallery) (pid : String) (i j : Nat)
    (gi gj : Gallery)
    (hcomp : ∀ (m : Nat) (g : Gallery), gs[m]? = some g → pidTarget pid g →
      ∃ im, g.img = some im ∧ im.complete = true
        ∧ im.naturalWidth ≠ 0 ∧ im.naturalHeight ≠ 0)
    (hgi : gs[i]? = some gi) (hti : pidTarget pid gi)
    (hgj : gs[j]? = some gj) (htj : pidTarget pid gj) :
    ∃ r0, ((fixAdaptiveAspectRatios gs).galleries[i]?).map Gallery.galleryProp
            = some (some r0)
      ∧ ((fixAdaptiveAspectRatios gs).galleries[j]?).map Gallery.galleryProp
            = some (some r0)
      ∧ compCount (fixAdaptiveAspectRatios gs) pid = 1 := by
  have hinv : PassInv gs pid gs.length (fixAdaptiveAspectRatios gs) :=
    passInv_run gs pid gs.length hcomp
  have hlen_i : i < gs.length := by
    by_contra hcon
    rw [List.getElem?_eq_none (le_of_not_lt hcon)] at hgi
    exact Option.noConfusion hgi
  have hlen_j : j < gs.length := by
    by_contra hcon
    rw [List.getElem?_eq_none (le_of_not_lt hcon)] at hgj
    exact Option.noConfusion hgj
  rcases hinv.main with ⟨hA, _, _⟩ | ⟨r0, _, hn, hp⟩
  · exact absurd hti (hA i gi hlen_i hgi)
  · exact ⟨r0, hp i gi hlen_i hgi hti, hp j gj hlen_j hgj htj, hn⟩

/-- C8 witness: a batch of two complete-image galleries sharing product
id `"B"`. -/
theorem C8_witness :
    (∀ (m : Nat) (g : Gallery),
        ([{ productId := some "B", img := some ⟨true, 1600, 900⟩, processed := false,
            galleryProp := none, containerRatios := [none] },
          { productId := some "B", img := some ⟨true, 400, 400⟩, processed := false,
            galleryProp := none, containerRatios := [none] }] : List Gallery)[m]? = some g →
        pidTarget "B" g →
        ∃ im, g.img = some im ∧ im.complete = true
          ∧ im.naturalWidth ≠ 0 ∧ im.naturalHeight ≠ 0)
    ∧ (∃ r0,
        ((fixAdaptiveAspectRatios
            [{ productId := some "B", img := some ⟨true, 1600, 900⟩, processed := false,
               galleryProp := none, containerRatios := [none] },
             { productId := some "B", img := some ⟨true, 400, 400⟩, processed := false,
               galleryProp := none, containerRatios := [none] }]).galleries[0]?).map
            Gallery.galleryProp = some (some r0)
        ∧ ((fixAdaptiveAspectRatios
            [{ productId := some "B", img := some ⟨true, 1600, 900⟩, processed := false,
               galleryProp := none, containerRatios := [none] },
             { productId := some "B", img := some ⟨true, 400, 400⟩, processed := false,
               galleryProp := none, containerRatios := [none] }]).galleries[1]?).map
            Gallery.galleryProp = some (some r0)
        ∧ compCount (fixAdaptiveAspectRatios
            [{ productId := some "B", img := some ⟨true, 1600, 900⟩, processed := false,
               galleryProp := none, containerRatios := [none] },
             { productId := some "B", img := some ⟨true, 400, 400⟩, processed := false,
               galleryProp := none, containerRatios := [none] }]) "B" = 1) := by
  refine ⟨?_, ?_⟩
  · intro m g hm ht
    match m, hm with
    | 0, hm =>
      cases hm
      exact ⟨_, rfl, rfl, by decide, by decide⟩
    | 1, hm =>
      cases hm
      exact ⟨_, rfl, rfl, by decide, by decide⟩
  · refine C8_amended_complete_images _ "B" 0 1 _ _ ?_ rfl ⟨rfl, rfl⟩ rfl ⟨rfl, rfl⟩
    intro m g hm ht
    match m, hm with
    | 0, hm =>
      cases hm
      exact ⟨_, rfl, rfl, by decide, by decide⟩
    | 1, hm =>
      cases hm
      exact ⟨_, rfl, rfl, by decide, by decide⟩

/-! ## Page descriptors and range guard -/

/-- A scroll direction, the `"previous" | "next"` argument. -/
inductive Dir where
  | next : Dir
  | prev : Dir
deriving DecidableEq

/-- The result of `#getPage`: the page number and the `page` query
parameter written into the URL (`url.searchParams.set('page',
page.toString())`). -/
structure PageDesc where
  page : JSNum
  urlPage : String
deriving DecidableEq

/-- Build the descriptor for a page number, as `#getPage` does. -/
def mkPageDesc (p : JSNum) : PageDesc := ⟨p, jstr p⟩

/-- `#shouldUsePage(pageInfo)`: false for a missing descriptor, false when
`pageInfo.page > lastPage || pageInfo.page < 1`, true otherwise.  Both
comparisons are JS comparisons, hence false on `NaN`. -/
def shouldUsePage (pageInfo : Option PageDesc) (lastPage : JSNum) : Bool :=
  match pageInfo with
  | none => false
  | some info => if jgt info.page lastPage || jlt info.page (JSNum.int 1) then false else true

/-- A card element as `#getPage` reads it: just its `dataset.page`
attribute (missing attribute = `undefined`, so `Number` of it is `NaN`). -/
structure CardElem where
  dataPage : Option String
deriving DecidableEq

/-- `#getPage(type)` at the DOM level: `cards = this.refs.cards` may be
absent (`!Array.isArray(cards)` returns `undefined`); the target card is
the first (previous) or last (next) card; its parsed page is decremented
or incremented. -/
def getPageRaw : Option (List CardElem) → Dir → Option PageDesc
  | none, _ => none
  | some cs, Dir.prev => cs.head?.map (fun t => mkPageDesc (jsub1 (numberOfAttr t.dataPage)))
  | some cs, Dir.next => cs.getLast?.map (fun t => mkPageDesc (jadd1 (numberOfAttr t.dataPage)))

/-! ## The component as a state machine

The `async` methods of `PaginatedList` suspend only at
`await promise` (the per-direction waiter inside the render methods) and
at `await sectionRenderer.getSectionHTML(...)` (inside `#fetchPage`).
Every other stretch of code is synchronous and runs to completion before
anything else happens, so the component is a state machine whose steps are:

* `intersect d` — a sentinel intersection delivers a call to
  `#renderNextPage` / `#renderPreviousPage`, which runs to its splice, to
  its `await promise` (registering itself as the direction's waiter, and
  silently replacing any waiter already in the slot), or to an early
  return;
* `net d r` — the oldest in-flight `getSectionHTML` for direction `d`
  resolves with `r`; the rest of `#fetchPage` stores the parse result in
  the page cache and fires-and-clears the waiter slot, which (the promise
  resolution being a microtask that runs before any further task) resumes
  the waiting render to completion, atomically within this step;
* `idle d` — one of the callbacks queued by `requestIdleCallback` after a
  splice fires and runs `#fetchPage(d)` up to its own `await`, issuing the
  network request.

`connectedCallback` is the function `connect` below.  Cards carry their
`Number(dataset.page)` value.  The refs (`grid`, `cards`) are taken as
bound — `#observeViewMore` never installs the observer otherwise — and
`history.pushState`/`#processNewElements` affect nothing this model
tracks beyond the log.  The section renderer is the external collaborator
the spec assumes correct: a successful response for page `p` parses to a
grid whose cards are tagged with page `p` (an `ok` result), and any
response in which the grid or its cards cannot be found is `malformed`. -/

/-- A rendered product card: its parsed `page` attribute and an identity. -/
structure Card where
  page : JSNum
  uid : Nat
deriving DecidableEq

/-- What `#getGridForPage` finds in one cached fragment: `none` when the
`[ref="grid"]` marker is missing (the lookup returns `undefined`),
otherwise the card children in document order (an empty `NodeList` is
still truthy). -/
abbrev PageHTML := Option (List Card)

/-- One entry of the observation log the model keeps alongside the state. -/
inductive LogEntry where
  | requested : Dir → JSNum → LogEntry
  | spliced : Dir → JSNum → List Card → LogEntry
  | suspended : Dir → JSNum → LogEntry
  | resumed : Dir → JSNum → LogEntry
  | pushed : JSNum → LogEntry
deriving DecidableEq

/-- The component state. `waitNext`/`waitPrev` model the
`#resolveNextPagePromise` / `#resolvePreviousPagePromise` slots: `some
desc` is a non-null resolver whose suspended render computed `desc`
before suspending.  `inFlightNext`/`inFlightPrev` are the descriptors of
the unresolved `getSectionHTML` calls of each direction, oldest first.
`idleNext`/`idlePrev` count the queued idle callbacks of each
direction. -/
structure CState where
  grid : List Card
  lastPage : JSNum
  pages : List (JSNum × PageHTML)
  waitNext : Option PageDesc
  waitPrev : Option PageDesc
  inFlightNext : List PageDesc
  inFlightPrev : List PageDesc
  idleNext : Nat
  idlePrev : Nat
  log : List LogEntry
deriving DecidableEq

/-- `this.pages.get(page)` (`Map` keys compare like our equality; `NaN`
is a valid key). -/
def lookupPage : List (JSNum × PageHTML) → JSNum → Option PageHTML
  | [], _ => none
  | kv :: rest, p => if kv.1 = p then some kv.2 else lookupPage rest p

/-- `#getGridForPage(page)`: cache lookup, parse, grid marker lookup,
card extraction.  A cache miss and a malformed fragment both yield
`none` (`undefined` in the source). -/
def getGridForPage (s : CState) (p : JSNum) : Option (List Card) :=
  match lookupPage s.pages p with
  | none => none
  | some html => html

/-- `#getPage(type)` over the live grid (the `cards` refs are the grid's
card children in document order; an empty grid has no target card). -/
def getPage (type : Dir) (grid : List Card) : Option PageDesc :=
  match type with
  | Dir.prev => grid.head?.map (fun c => mkPageDesc (jsub1 c.page))
  | Dir.next => grid.getLast?.map (fun c => mkPageDesc (jadd1 c.page))

/-- The tail every splice shares: insert the cards, then
`#processNewElements()`, `history.pushState('', '', url)`, and
`requestIdleCallback(() => this.#fetchPage(type))`. -/
def spliceTail (d : Dir) (desc : PageDesc) (els : List Card) (s : CState) : CState :=
  match d with
  | Dir.next =>
    { s with
      grid := s.grid ++ els
      log := s.log ++ [LogEntry.spliced Dir.next desc.page els, LogEntry.pushed desc.page]
      idleNext := s.idleNext + 1 }
  | Dir.prev =>
    { s with
      grid := els ++ s.grid
      log := s.log ++ [LogEntry.spliced Dir.prev desc.page els, LogEntry.pushed desc.page]
      idlePrev := s.idlePrev + 1 }

/-- `#renderNextPage()` up to its first suspension: compute and guard the
descriptor, look the page up, and either splice it (cache hit: the whole
method is synchronous) or become the direction's waiter. -/
def renderNextPage (s : CState) : CState :=
  match getPage Dir.next s.grid with
  | none => s
  | some nextPage =>
    if shouldUsePage (some nextPage) s.lastPage = false then s
    else
      match getGridForPage s nextPage.page with
      | some els => spliceTail Dir.next nextPage els s
      | none =>
        { s with
          waitNext := some nextPage
          log := s.log ++ [LogEntry.suspended Dir.next nextPage.page] }

/-- `#renderPreviousPage()` up to its first suspension (the scroll-offset
bookkeeping is `renderPreviousScrollTop` above and tracks no state the
pagination logic reads). -/
def renderPreviousPage (s : CState) : CState :=
  match getPage Dir.prev s.grid with
  | none => s
  | some previousPage =>
    if shouldUsePage (some previousPage) s.lastPage = false then s
    else
      match getGridForPage s previousPage.page with
      | some els => spliceTail Dir.prev previousPage els s
      | none =>
        { s with
          waitPrev := some previousPage
          log := s.log ++ [LogEntry.suspended Dir.prev previousPage.page] }

/-- `#fetchPage(type)` up to its `await`: compute and guard the
descriptor, then issue the network request for `desc.url`. -/
def fetchPage (type : Dir) (s : CState) : CState :=
  match getPage type s.grid with
  | none => s
  | some desc =>
    if shouldUsePage (some desc) s.lastPage = false then s
    else
      match type with
      | Dir.next =>
        { s with
          inFlightNext := s.inFlightNext ++ [desc]
          log := s.log ++ [LogEntry.requested Dir.next desc.page] }
      | Dir.prev =>
        { s with
          inFlightPrev := s.inFlightPrev ++ [desc]
          log := s.log ++ [LogEntry.requested Dir.prev desc.page] }

/-- A network response as the component sees it after parsing. -/
inductive NetResult where
  | malformed : NetResult
  | ok : List Nat → NetResult
deriving DecidableEq

/-- The parse result cached for page `p`: a correct section renderer tags
the cards of page `p`'s fragment with page `p`. -/
def fragmentFor (p : JSNum) : NetResult → PageHTML
  | NetResult.malformed => none
  | NetResult.ok uids => some (uids.map (fun u => { page := p, uid := u }))

/-- The rest of `#fetchPage('next')` once its `getSectionHTML` resolves,
plus the atomic resumption of the render it wakes up:
`this.pages.set(page.page, html)`, `this.#resolveNextPagePromise?.()`,
`this.#resolveNextPagePromise = null`; the resumed `#renderNextPage`
retries `#getGridForPage(nextPage.page)` with its own saved descriptor
and splices on success. -/
def fetchResolveNext (r : NetResult) (s : CState) : CState :=
  match s.inFlightNext with
  | [] => s
  | desc :: rest =>
    let s1 := { s with
      pages := (desc.page, fragmentFor desc.page r) :: s.pages
      inFlightNext := rest }
    match s1.waitNext with
    | none => s1
    | some w =>
      let s2 := { s1 with
        waitNext := none
        log := s1.log ++ [LogEntry.resumed Dir.next w.page] }
      match getGridForPage s2 w.page with
      | none => s2
      | some els => spliceTail Dir.next w els s2

/-- The rest of `#fetchPage('previous')` once its `getSectionHTML`
resolves; symmetric to `fetchResolveNext`. -/
def fetchResolvePrev (r : NetResult) (s : CState) : CState :=
  match s.inFlightPrev with
  | [] => s
  | desc :: rest =>
    let s1 := { s with
      pages := (desc.page, fragmentFor desc.page r) :: s.pages
      inFlightPrev := rest }
    match s1.waitPrev with
    | none => s1
    | some w =>
      let s2 := { s1 with
        waitPrev := none
        log := s1.log ++ [LogEntry.resumed Dir.prev w.page] }
      match getGridForPage s2 w.page with
      | none => s2
      | some els => spliceTail Dir.prev w els s2

/-- One queued idle callback of direction `d` fires (a no-op when none is
queued) and runs `#fetchPage(d)`. -/
def idleFire (d : Dir) (s : CState) : CState :=
  match d with
  | Dir.next =>
    if s.idleNext = 0 then s else fetchPage Dir.next { s with idleNext := s.idleNext - 1 }
  | Dir.prev =>
    if s.idlePrev = 0 then s else fetchPage Dir.prev { s with idlePrev := s.idlePrev - 1 }

/-- The externally scheduled events. -/
inductive Ev where
  | intersect : Dir → Ev
  | net : Dir → NetResult → Ev
  | idle : Dir → Ev
deriving DecidableEq

/-- One event-loop step. -/
def step (s : CState) : Ev → CState
  | Ev.intersect Dir.next => renderNextPage s
  | Ev.intersect Dir.prev => renderPreviousPage s
  | Ev.net Dir.next r => fetchResolveNext r s
  | Ev.net Dir.prev r => fetchResolvePrev r s
  | Ev.idle d => idleFire d s

/-- Run a sequence of events. -/
def run (s : CState) (evs : List Ev) : CState := evs.foldl step s

/-- The state right before `connectedCallback` acts. -/
def initState (grid0 : List Card) (lastPage : JSNum) : CState :=
  { grid := grid0, lastPage := lastPage, pages := [], waitNext := none, waitPrev := none,
    inFlightNext := [], inFlightPrev := [], idleNext := 0, idlePrev := 0, log := [] }

/-- `connectedCallback()`: prefetch the adjacent next and previous pages
(and install the sentinels, which is where the `intersect` events come
from). -/
def connect (grid0 : List Card) (lastPage : JSNum) : CState :=
  fetchPage Dir.prev (fetchPage Dir.next (initState grid0 lastPage))

/-- A well-behaved section renderer never delivers an in-range page with
zero cards (Shopify pagination renders every page in `[1, last-page]`
non-empty); malformed responses remain arbitrary. -/
def evOK : Ev → Bool
  | Ev.net _ (NetResult.ok uids) => !uids.isEmpty
  | _ => true

/-- Every network response of the trace is from a well-behaved renderer. -/
def TraceOK (evs : List Ev) : Prop := ∀ e ∈ evs, evOK e = true

instance (evs : List Ev) : Decidable (TraceOK evs) := by
  unfold TraceOK
  infer_instance

/-! ### Case lemmas for the step functions -/

theorem run_nil (s : CState) : run s [] = s := rfl

theorem run_cons (s : CState) (e : Ev) (evs : List Ev) :
    run s (e :: evs) = run (step s e) evs := rfl

theorem renderNextPage_noDesc (s : CState) (h : getPage Dir.next s.grid = none) :
    renderNextPage s = s := by
  unfold renderNextPage
  rw [h]

theorem renderNextPage_guard (s : CState) (desc : PageDesc)
    (h : getPage Dir.next s.grid = some desc)
    (hg : shouldUsePage (some desc) s.lastPage = false) :
    renderNextPage s = s := by
  unfold renderNextPage
  rw [h]
  dsimp only
  rw [hg]
  rfl

theorem renderNextPage_hit (s : CState) (desc : PageDesc) (els : List Card)
    (h : getPage Dir.next s.grid = some desc)
    (hg : shouldUsePage (some desc) s.lastPage = true)
    (hc : getGridForPage s desc.page = some els) :
    renderNextPage s = spliceTail Dir.next desc els s := by
  unfold renderNextPage
  rw [h]
  dsimp only
  rw [hg, hc]
  rfl

theorem renderNextPage_miss (s : CState) (desc : PageDesc)
    (h : getPage Dir.next s.grid = some desc)
    (hg : shouldUsePage (some desc) s.lastPage = true)
    (hc : getGridForPage s desc.page = none) :
    renderNextPage s
      = { s with waitNext := some desc,
                 log := s.log ++ [LogEntry.suspended Dir.next desc.page] } := by
  unfold renderNextPage
  rw [h]
  dsimp only
  rw [hg, hc]
  rfl

theorem renderPreviousPage_noDesc (s : CState) (h : getPage Dir.prev s.grid = none) :
    renderPreviousPage s = s := by
  unfold renderPreviousPage
  rw [h]

theorem renderPreviousPage_guard (s : CState) (desc : PageDesc)
    (h : getPage Dir.prev s.grid = some desc)
    (hg : shouldUsePage (some desc) s.lastPage = false) :
    renderPreviousPage s = s := by
  unfold renderPreviousPage
  rw [h]
  dsimp only
  rw [hg]
  rfl

theorem renderPreviousPage_hit (s : CState) (desc : PageDesc) (els : List Card)
    (h : getPage Dir.prev s.grid = some desc)
    (hg : shouldUsePage (some desc) s.lastPage = true)
    (hc : getGridForPage s desc.page = some els) :
    renderPreviousPage s = spliceTail Dir.prev desc els s := by
  unfold renderPreviousPage
  rw [h]
  dsimp only
  rw [hg, hc]
  rfl

theorem renderPreviousPage_miss (s : CState) (desc : PageDesc)
    (h : getPage Dir.prev s.grid = some desc)
    (hg : shouldUsePage (some desc) s.lastPage = true)
    (hc : getGridForPage s desc.page = none) :
    renderPreviousPage s
      = { s with waitPrev := some desc,
                 log := s.log ++ [LogEntry.suspended Dir.prev desc.page] } := by
  unfold renderPreviousPage
  rw [h]
  dsimp only
  rw [hg, hc]
  rfl

theorem fetchPage_noDesc (d : Dir) (s : CState) (h : getPage d s.grid = none) :
    fetchPage d s = s := by
  unfold fetchPage
  rw [h]

theorem fetchPage_guard (d : Dir) (s : CState) (desc : PageDesc)
    (h : getPage d s.grid = some desc)
    (hg : shouldUsePage (some desc) s.lastPage = false) :
    fetchPage d s = s := by
  unfold fetchPage
  rw [h]
  dsimp only
  rw [hg]
  rfl

theorem fetchPage_issue_next (s : CState) (desc : PageDesc)
    (h : getPage Dir.next s.grid = some desc)
    (hg : shouldUsePage (some desc) s.lastPage = true) :
    fetchPage Dir.next s
      = { s with inFlightNext := s.inFlightNext ++ [desc],
                 log := s.log ++ [LogEntry.requested Dir.next desc.page] } := by
  unfold fetchPage
  rw [h]
  dsimp only
  rw [hg]
  rfl

theorem fetchPage_issue_prev (s : CState) (desc : PageDesc)
    (h : getPage Dir.prev s.grid = some desc)
    (hg : shouldUsePage (some desc) s.lastPage = true) :
    fetchPage Dir.prev s
      = { s with inFlightPrev := s.inFlightPrev ++ [desc],
                 log := s.log ++ [LogEntry.requested Dir.prev desc.page] } := by
  unfold fetchPage
  rw [h]
  dsimp only
  rw [hg]
  rfl

/-! ### Observables of a run: splice sequences and reachability invariant -/

/-- First grid card's parsed page. -/
def headPage (s : CState) : Option JSNum := s.grid.head?.map Card.page

/-- Last grid card's parsed page. -/
def lastGridPage (s : CState) : Option JSNum := s.grid.getLast?.map Card.page

/-- The next-direction splices of a log, in order. -/
def nextSpl : List LogEntry → List (JSNum × List Card)
  | [] => []
  | LogEntry.spliced Dir.next p cs :: rest => (p, cs) :: nextSpl rest
  | _ :: rest => nextSpl rest

/-- The previous-direction splices of a log, in order. -/
def prevSpl : List LogEntry → List (JSNum × List Card)
  | [] => []
  | LogEntry.spliced Dir.prev p cs :: rest => (p, cs) :: prevSpl rest
  | _ :: rest => prevSpl rest

/-- All cards appended by a sequence of next splices, in append order. -/
def nextJoin (xs : List (JSNum × List Card)) : List Card := (xs.map Prod.snd).flatten

/-- All cards prepended by a sequence of previous splices; each prepend
puts its cards in front, so the later splices end up leftmost. -/
def prevJoin (xs : List (JSNum × List Card)) : List Card := ((xs.map Prod.snd).reverse).flatten

/-- A sequence of non-empty next splices climbing one page at a time from
last page `l` to last page `l2`. -/
def NextChain : Int → Int → List (JSNum × List Card) → Prop
  | l, l2, [] => l2 = l
  | l, l2, x :: rest => x.1 = JSNum.int (l + 1) ∧ x.2 ≠ [] ∧ NextChain (l + 1) l2 rest

/-- A sequence of non-empty previous splices descending one page at a
time from first page `f` to first page `f2`. -/
def PrevChain : Int → Int → List (JSNum × List Card) → Prop
  | f, f2, [] => f2 = f
  | f, f2, x :: rest => x.1 = JSNum.int (f - 1) ∧ x.2 ≠ [] ∧ PrevChain (f - 1) f2 rest

theorem nextSpl_append (a b : List LogEntry) : nextSpl (a ++ b) = nextSpl a ++ nextSpl b := by
  induction a with
  | nil => rfl
  | cons e rest ih =>
    cases e with
    | spliced d p cs =>
      cases d
      · simp only [List.cons_append, nextSpl, List.append_eq, ih]
      · simp only [List.cons_append, nextSpl, List.append_eq, ih]
    | requested d p => simp only [List.cons_append, nextSpl, List.append_eq, ih]
    | suspended d p => simp only [List.cons_append, nextSpl, List.append_eq, ih]
    | resumed d p => simp only [List.cons_append, nextSpl, List.append_eq, ih]
    | pushed p => simp only [List.cons_append, nextSpl, List.append_eq, ih]

theorem prevSpl_append (a b : List LogEntry) : prevSpl (a ++ b) = prevSpl a ++ prevSpl b := by
  induction a with
  | nil => rfl
  | cons e rest ih =>
    cases e with
    | spliced d p cs =>
      cases d
      · simp only [List.cons_append, prevSpl, List.append_eq, ih]
      · simp only [List.cons_append, prevSpl, List.append_eq, ih]
    | requested d p => simp only [List.cons_append, prevSpl, List.append_eq, ih]
    | suspended d p => simp only [List.cons_append, prevSpl, List.append_eq, ih]
    | resumed d p => simp only [List.cons_append, prevSpl, List.append_eq, ih]
    | pushed p => simp only [List.cons_append, prevSpl, List.append_eq, ih]

theorem nextJoin_append (a b : List (JSNum × List Card)) :
    nextJoin (a ++ b) = nextJoin a ++ nextJoin b := by
  unfold nextJoin
  rw [List.map_append, List.flatten_append]

theorem prevJoin_append (a b : List (JSNum × List Card)) :
    prevJoin (a ++ b) = prevJoin b ++ prevJoin a := by
  unfold prevJoin
  rw [List.map_append, List.reverse_append, List.flatten_append]

theorem nextChain_append (l m l2 : Int) (xs ys : List (JSNum × List Card))
    (h1 : NextChain l m xs) (h2 : NextChain m l2 ys) : NextChain l l2 (xs ++ ys) := by
  induction xs generalizing l with
  | nil =>
    unfold NextChain at h1
    subst h1
    exact h2
  | cons x rest ih =>
    obtain ⟨hx, hne, hrest⟩ := h1
    exact ⟨hx, hne, ih (l + 1) hrest⟩

theorem prevChain_append (f m f2 : Int) (xs ys : List (JSNum × List Card))
    (h1 : PrevChain f m xs) (h2 : PrevChain m f2 ys) : PrevChain f f2 (xs ++ ys) := by
  induction xs generalizing f with
  | nil =>
    unfold PrevChain at h1
    subst h1
    exact h2
  | cons x rest ih =>
    obtain ⟨hx, hne, hrest⟩ := h1
    exact ⟨hx, hne, ih (f - 1) hrest⟩

/-- A `NextChain`'s splice pages are exactly the consecutive run
`l+1, l+2, …`, in order — hence strictly increasing and duplicate-free. -/
theorem nextChain_pages (l l2 : Int) (xs : List (JSNum × List Card))
    (h : NextChain l l2 xs) :
    xs.map Prod.fst
      = (List.range xs.length).map (fun (t : ℕ) => JSNum.int (l + 1 + (t : Int))) := by
  induction xs generalizing l with
  | nil => rfl
  | cons x rest ih =>
    obtain ⟨hx, _, hrest⟩ := h
    have htail := ih (l + 1) hrest
    rw [List.map_cons, hx, htail, List.length_cons, List.range_succ_eq_map, List.map_cons,
      List.map_map]
    congr 1
    · norm_num
    · apply List.map_congr_left
      intro t _
      simp only [Function.comp_apply]
      congr 1
      push_cast
      ring

theorem lookupPage_cons_ne (kv : JSNum × PageHTML) (rest : List (JSNum × PageHTML))
    (p : JSNum) (h : kv.1 ≠ p) : lookupPage (kv :: rest) p = lookupPage rest p := by
  show (if kv.1 = p then some kv.2 else lookupPage rest p) = lookupPage rest p
  rw [if_neg h]

theorem lookupPage_cons_self (k : JSNum) (html : PageHTML) (rest : List (JSNum × PageHTML)) :
    lookupPage ((k, html) :: rest) k = some html := by
  show (if k = k then some html else lookupPage rest k) = some html
  rw [if_pos rfl]

theorem lookupPage_eq_none (ps : List (JSNum × PageHTML)) (p : JSNum)
    (h : ∀ kv ∈ ps, kv.1 ≠ p) : lookupPage ps p = none := by
  induction ps with
  | nil => rfl
  | cons kv rest ih =>
    show (if kv.1 = p then some kv.2 else lookupPage rest p) = none
    rw [if_neg (h kv (List.mem_cons_self kv rest))]
    exact ih (fun kv2 h2 => h kv2 (List.mem_cons_of_mem kv h2))

theorem lookupPage_mem (ps : List (JSNum × PageHTML)) (p : JSNum) (html : PageHTML)
    (h : lookupPage ps p = some html) : (p, html) ∈ ps := by
  induction ps with
  | nil => exact Option.noConfusion h
  | cons kv rest ih =>
    have h2 : (if kv.1 = p then some kv.2 else lookupPage rest p) = some html := h
    by_cases hk : kv.1 = p
    · rw [if_pos hk] at h2
      cases h2
      rw [← hk]
      exact List.mem_cons_self _ _
    · rw [if_neg hk] at h2
      exact List.mem_cons_of_mem kv (ih h2)

theorem getGridForPage_of_lookup_none (s : CState) (p : JSNum)
    (h : lookupPage s.pages p = none) : getGridForPage s p = none := by
  unfold getGridForPage
  rw [h]

theorem getGridForPage_of_lookup_some (s : CState) (p : JSNum) (html : PageHTML)
    (h : lookupPage s.pages p = some html) : getGridForPage s p = html := by
  unfold getGridForPage
  rw [h]

theorem getGridForPage_some_mem (s : CState) (p : JSNum) (els : List Card)
    (h : getGridForPage s p = some els) : (p, some els) ∈ s.pages := by
  unfold getGridForPage at h
  cases hl : lookupPage s.pages p with
  | none => rw [hl] at h; exact Option.noConfusion h
  | some html =>
    rw [hl] at h
    cases h
    exact lookupPage_mem s.pages p _ hl

theorem getLastMem {α : Type} : ∀ (l : List α) (a : α), l.getLast? = some a → a ∈ l
  | [], a, h => Option.noConfusion h
  | [b], a, h => by
    cases h
    exact List.mem_singleton_self b
  | b :: c :: rest, a, h => by
    rw [List.getLast?_cons_cons] at h
    exact List.mem_cons_of_mem b (getLastMem (c :: rest) a h)

theorem getPage_next_int (s : CState) (L : Int) (h : lastGridPage s = some (JSNum.int L)) :
    getPage Dir.next s.grid = some (mkPageDesc (JSNum.int (L + 1))) := by
  unfold lastGridPage at h
  rw [Option.map_eq_some'] at h
  obtain ⟨c, hc, hcp⟩ := h
  unfold getPage
  rw [hc]
  simp only [Option.map_some', hcp]
  rfl

theorem getPage_prev_int (s : CState) (F : Int) (h : headPage s = some (JSNum.int F)) :
    getPage Dir.prev s.grid = some (mkPageDesc (JSNum.int (F - 1))) := by
  unfold headPage at h
  rw [Option.map_eq_some'] at h
  obtain ⟨c, hc, hcp⟩ := h
  unfold getPage
  rw [hc]
  simp only [Option.map_some', hcp]
  rfl

theorem grid_ne_nil_of_headPage (s : CState) (p : JSNum) (h : headPage s = some p) :
    s.grid ≠ [] := by
  intro hcon
  unfold headPage at h
  rw [hcon] at h
  exact Option.noConfusion h

/-- The reachability invariant of the component, for a state whose first
grid card is on page `F` and last grid card on page `L`:

* the cache only holds pages of the window `[F-1, L+1]`, every cached
  grid is non-empty, and its cards are tagged with its key;
* per direction, at most one of {an in-flight fetch, a queued idle
  callback} exists, the in-flight descriptor is the adjacent page, and
  whenever a fetch is in flight, an idle callback is queued, or a waiter
  is registered, the adjacent page has no splicable cache entry yet. -/
structure InvFL (s : CState) (F L : Int) : Prop where
  hF : headPage s = some (JSNum.int F)
  hL : lastGridPage s = some (JSNum.int L)
  hFL : F ≤ L
  cacheKey : ∀ kv ∈ s.pages, ∃ k : Int, kv.1 = JSNum.int k ∧ F - 1 ≤ k ∧ k ≤ L + 1
  cacheNE : ∀ kv ∈ s.pages, ∀ cs : List Card, kv.2 = some cs → cs ≠ []
  cacheTag : ∀ kv ∈ s.pages, ∀ cs : List Card, kv.2 = some cs → ∀ c ∈ cs, c.page = kv.1
  nSum : s.inFlightNext.length + s.idleNext ≤ 1
  nPage : ∀ dsc ∈ s.inFlightNext, dsc = mkPageDesc (JSNum.int (L + 1))
  nIdleFresh : 1 ≤ s.idleNext → getGridForPage s (JSNum.int (L + 1)) = none
  nFlightFresh : s.inFlightNext ≠ [] → getGridForPage s (JSNum.int (L + 1)) = none
  nWaitPage : ∀ w, s.waitNext = some w → w = mkPageDesc (JSNum.int (L + 1))
  nWaitFresh : s.waitNext ≠ none → getGridForPage s (JSNum.int (L + 1)) = none
  pSum : s.inFlightPrev.length + s.idlePrev ≤ 1
  pPage : ∀ dsc ∈ s.inFlightPrev, dsc = mkPageDesc (JSNum.int (F - 1))
  pIdleFresh : 1 ≤ s.idlePrev → getGridForPage s (JSNum.int (F - 1)) = none
  pFlightFresh : s.inFlightPrev ≠ [] → getGridForPage s (JSNum.int (F - 1)) = none
  pWaitPage : ∀ w, s.waitPrev = some w → w = mkPageDesc (JSNum.int (F - 1))
  pWaitFresh : s.waitPrev ≠ none → getGridForPage s (JSNum.int (F - 1)) = none

/-- Cache keys below `L + 2` mean the page `L + 2` has no entry at all. -/
theorem getGridForPage_none_of_bound (s : CState) (F L : Int)
    (hck : ∀ kv ∈ s.pages, ∃ k : Int, kv.1 = JSNum.int k ∧ F - 1 ≤ k ∧ k ≤ L + 1)
    (p : Int) (hp : p < F - 1 ∨ L + 1 < p) :
    getGridForPage s (JSNum.int p) = none := by
  apply getGridForPage_of_lookup_none
  apply lookupPage_eq_none
  intro kv hkv
  obtain ⟨k, hk, hk1, hk2⟩ := hck kv hkv
  rw [hk]
  intro hcon
  injection hcon with hcon
  omega

/-- Appending page `L+1`'s non-empty, correctly tagged cards to the grid
preserves the invariant with the last page advanced to `L + 1`, provided
the next-direction coordination slots are all clear. -/
theorem invFL_spliceNext (s : CState) (F L : Int) (desc : PageDesc) (els : List Card)
    (hI : InvFL s F L)
    (hflight : s.inFlightNext = []) (hidle : s.idleNext = 0) (hwait : s.waitNext = none)
    (hels : els ≠ []) (htags : ∀ c ∈ els, c.page = JSNum.int (L + 1)) :
    InvFL (spliceTail Dir.next desc els s) F (L + 1) := by
  have hgridne : s.grid ≠ [] := grid_ne_nil_of_headPage s _ hI.hF
  have hFLs := hI.hFL
  have hlast : (s.grid ++ els).getLast? = els.getLast? :=
    List.getLast?_append_of_ne_nil s.grid hels
  obtain ⟨c0, hc0⟩ : ∃ c0, els.getLast? = some c0 :=
    Option.isSome_iff_exists.mp (List.getLast?_isSome.mpr hels)
  refine
    { hF := ?_, hL := ?_, hFL := by omega
      cacheKey := ?_, cacheNE := hI.cacheNE, cacheTag := hI.cacheTag
      nSum := ?_, nPage := ?_, nIdleFresh := ?_, nFlightFresh := ?_
      nWaitPage := ?_, nWaitFresh := ?_
      pSum := hI.pSum, pPage := hI.pPage
      pIdleFresh := fun h => hI.pIdleFresh h
      pFlightFresh := fun h => hI.pFlightFresh h
      pWaitPage := hI.pWaitPage
      pWaitFresh := fun h => hI.pWaitFresh h }
  · show (s.grid ++ els).head?.map Card.page = some (JSNum.int F)
    rw [List.head?_append_of_ne_nil s.grid hgridne]
    exact hI.hF
  · show (s.grid ++ els).getLast?.map Card.page = some (JSNum.int (L + 1))
    rw [hlast, hc0, Option.map_some', htags c0 (getLastMem els c0 hc0)]
  · intro kv hkv
    obtain ⟨k, hk1, hk2, hk3⟩ := hI.cacheKey kv hkv
    exact ⟨k, hk1, hk2, by omega⟩
  · show s.inFlightNext.length + (s.idleNext + 1) ≤ 1
    rw [hflight, hidle]
    decide
  · show ∀ dsc ∈ s.inFlightNext, dsc = mkPageDesc (JSNum.int (L + 1 + 1))
    rw [hflight]
    intro dsc h
    exact absurd h (List.not_mem_nil dsc)
  · intro _
    exact getGridForPage_none_of_bound _ F L hI.cacheKey (L + 1 + 1) (Or.inr (by omega))
  · intro h
    exact absurd hflight h
  · intro w hw
    rw [show (spliceTail Dir.next desc els s).waitNext = s.waitNext from rfl, hwait] at hw
    exact Option.noConfusion hw
  · intro h
    exact absurd hwait h

/-- Prepending page `F-1`'s non-empty, correctly tagged cards to the grid
preserves the invariant with the first page moved back to `F - 1`,
provided the previous-direction coordination slots are all clear. -/
theorem invFL_splicePrev (s : CState) (F L : Int) (desc : PageDesc) (els : List Card)
    (hI : InvFL s F L)
    (hflight : s.inFlightPrev = []) (hidle : s.idlePrev = 0) (hwait : s.waitPrev = none)
    (hels : els ≠ []) (htags : ∀ c ∈ els, c.page = JSNum.int (F - 1)) :
    InvFL (spliceTail Dir.prev desc els s) (F - 1) L := by
  have hgridne : s.grid ≠ [] := grid_ne_nil_of_headPage s _ hI.hF
  have hFLs := hI.hFL
  have hhead : (els ++ s.grid).head? = els.head? :=
    List.head?_append_of_ne_nil els hels
  obtain ⟨c0, hc0, hc0mem⟩ : ∃ c0, els.head? = some c0 ∧ c0 ∈ els := by
    cases hEls : els with
    | nil => exact absurd hEls hels
    | cons a as => exact ⟨a, rfl, List.mem_cons_self a as⟩
  refine
    { hF := ?_, hL := ?_, hFL := by omega
      cacheKey := ?_, cacheNE := hI.cacheNE, cacheTag := hI.cacheTag
      pSum := ?_, pPage := ?_, pIdleFresh := ?_, pFlightFresh := ?_
      pWaitPage := ?_, pWaitFresh := ?_
      nSum := hI.nSum, nPage := hI.nPage
      nIdleFresh := fun h => hI.nIdleFresh h
      nFlightFresh := fun h => hI.nFlightFresh h
      nWaitPage := hI.nWaitPage
      nWaitFresh := fun h => hI.nWaitFresh h }
  · show (els ++ s.grid).head?.map Card.page = some (JSNum.int (F - 1))
    rw [hhead, hc0, Option.map_some', htags c0 hc0mem]
  · show (els ++ s.grid).getLast?.map Card.page = some (JSNum.int L)
    rw [List.getLast?_append_of_ne_nil els hgridne]
    exact hI.hL
  · intro kv hkv
    obtain ⟨k, hk1, hk2, hk3⟩ := hI.cacheKey kv hkv
    exact ⟨k, hk1, by omega, by omega⟩
  · show s.inFlightPrev.length + (s.idlePrev + 1) ≤ 1
    rw [hflight, hidle]
    decide
  · show ∀ dsc ∈ s.inFlightPrev, dsc = mkPageDesc (JSNum.int (F - 1 - 1))
    rw [hflight]
    intro dsc h
    exact absurd h (List.not_mem_nil dsc)
  · intro _
    exact getGridForPage_none_of_bound _ F L hI.cacheKey (F - 1 - 1) (Or.inl (by omega))
  · intro h
    exact absurd hflight h
  · intro w hw
    rw [show (spliceTail Dir.prev desc els s).waitPrev = s.waitPrev from rfl, hwait] at hw
    exact Option.noConfusion hw
  · intro h
    exact absurd hwait h

theorem fetchResolveNext_nil (s : CState) (r : NetResult) (h : s.inFlightNext = []) :
    fetchResolveNext r s = s := by
  unfold fetchResolveNext
  rw [h]

theorem fetchResolvePrev_nil (s : CState) (r : NetResult) (h : s.inFlightPrev = []) :
    fetchResolvePrev r s = s := by
  unfold fetchResolvePrev
  rw [h]

theorem fetchResolveNext_noWait (s : CState) (r : NetResult) (desc : PageDesc)
    (rest : List PageDesc) (h : s.inFlightNext = desc :: rest) (hw : s.waitNext = none) :
    fetchResolveNext r s
      = { s with pages := (desc.page, fragmentFor desc.page r) :: s.pages,
                 inFlightNext := rest } := by
  unfold fetchResolveNext
  rw [h]
  dsimp only
  rw [hw]

theorem fetchResolvePrev_noWait (s : CState) (r : NetResult) (desc : PageDesc)
    (rest : List PageDesc) (h : s.inFlightPrev = desc :: rest) (hw : s.waitPrev = none) :
    fetchResolvePrev r s
      = { s with pages := (desc.page, fragmentFor desc.page r) :: s.pages,
                 inFlightPrev := rest } := by
  unfold fetchResolvePrev
  rw [h]
  dsimp only
  rw [hw]

theorem fetchResolveNext_wait (s : CState) (r : NetResult) (desc : PageDesc)
    (rest : List PageDesc) (w : PageDesc)
    (h : s.inFlightNext = desc :: rest) (hw : s.waitNext = some w) :
    fetchResolveNext r s
      = (let s2 : CState :=
          { s with pages := (desc.page, fragmentFor desc.page r) :: s.pages,
                   inFlightNext := rest, waitNext := none,
                   log := s.log ++ [LogEntry.resumed Dir.next w.page] }
         match getGridForPage s2 w.page with
         | none => s2
         | some els => spliceTail Dir.next w els s2) := by
  unfold fetchResolveNext
  rw [h]
  dsimp only
  rw [hw]

theorem fetchResolvePrev_wait (s : CState) (r : NetResult) (desc : PageDesc)
    (rest : List PageDesc) (w : PageDesc)
    (h : s.inFlightPrev = desc :: rest) (hw : s.waitPrev = some w) :
    fetchResolvePrev r s
      = (let s2 : CState :=
          { s with pages := (desc.page, fragmentFor desc.page r) :: s.pages,
                   inFlightPrev := rest, waitPrev := none,
                   log := s.log ++ [LogEntry.resumed Dir.prev w.page] }
         match getGridForPage s2 w.page with
         | none => s2
         | some els => spliceTail Dir.prev w els s2) := by
  unfold fetchResolvePrev
  rw [h]
  dsimp only
  rw [hw]

theorem idleFire_next_zero (s : CState) (h : s.idleNext = 0) : idleFire Dir.next s = s := by
  show (if s.idleNext = 0 then s
    else fetchPage Dir.next { s with idleNext := s.idleNext - 1 }) = s
  rw [if_pos h]

theorem idleFire_prev_zero (s : CState) (h : s.idlePrev = 0) : idleFire Dir.prev s = s := by
  show (if s.idlePrev = 0 then s
    else fetchPage Dir.prev { s with idlePrev := s.idlePrev - 1 }) = s
  rw [if_pos h]

theorem idleFire_next_pos (s : CState) (h : s.idleNext ≠ 0) :
    idleFire Dir.next s = fetchPage Dir.next { s with idleNext := s.idleNext - 1 } := by
  show (if s.idleNext = 0 then s
    else fetchPage Dir.next { s with idleNext := s.idleNext - 1 })
    = fetchPage Dir.next { s with idleNext := s.idleNext - 1 }
  rw [if_neg h]

theorem idleFire_prev_pos (s : CState) (h : s.idlePrev ≠ 0) :
    idleFire Dir.prev s = fetchPage Dir.prev { s with idlePrev := s.idlePrev - 1 } := by
  show (if s.idlePrev = 0 then s
    else fetchPage Dir.prev { s with idlePrev := s.idlePrev - 1 })
    = fetchPage Dir.prev { s with idlePrev := s.idlePrev - 1 }
  rw [if_neg h]

/-- Looking up a page other than a newly consed key sees the old cache. -/
theorem getGridForPage_cons_ne (s' s : CState) (k : JSNum) (h : PageHTML)
    (hp : s'.pages = (k, h) :: s.pages) (p : JSNum) (hk : k ≠ p) :
    getGridForPage s' p = getGridForPage s p := by
  unfold getGridForPage
  rw [hp, lookupPage_cons_ne (k, h) s.pages p hk]

/-- Caching the resolved fragment of the in-flight next page and popping
the in-flight queue preserves the invariant — with the waiter slot
cleared (or already empty) and any log extension. -/
theorem invFL_resolveNextCore (s : CState) (F L : Int) (r : NetResult)
    (rest : List PageDesc) (lg : List LogEntry) (w : Option PageDesc)
    (hI : InvFL s F L)
    (hfl : s.inFlightNext = mkPageDesc (JSNum.int (L + 1)) :: rest)
    (hok : ∀ uids, r = NetResult.ok uids → uids ≠ [])
    (hwn : w = none) :
    InvFL { s with
        pages := (JSNum.int (L + 1), fragmentFor (JSNum.int (L + 1)) r) :: s.pages,
        inFlightNext := rest, waitNext := w, log := lg } F L := by
  have hFLs := hI.hFL
  have hsum := hI.nSum
  rw [hfl] at hsum
  have hrest : rest = [] := by
    cases rest with
    | nil => rfl
    | cons a b =>
      simp only [List.length_cons] at hsum
      omega
  have hidle : s.idleNext = 0 := by
    simp only [List.length_cons] at hsum
    omega
  refine
    { hF := hI.hF, hL := hI.hL, hFL := hI.hFL
      cacheKey := ?_, cacheNE := ?_, cacheTag := ?_
      nSum := ?_, nPage := ?_, nIdleFresh := ?_, nFlightFresh := ?_
      nWaitPage := ?_, nWaitFresh := ?_
      pSum := hI.pSum, pPage := hI.pPage
      pIdleFresh := ?_, pFlightFresh := ?_, pWaitPage := hI.pWaitPage, pWaitFresh := ?_ }
  · intro kv hkv
    rcases List.mem_cons.mp hkv with rfl | hmem
    · exact ⟨L + 1, rfl, by omega, by omega⟩
    · exact hI.cacheKey kv hmem
  · intro kv hkv cs hcs
    rcases List.mem_cons.mp hkv with rfl | hmem
    · cases r with
      | malformed => exact Option.noConfusion hcs
      | ok uids =>
        simp only [fragmentFor] at hcs
        injection hcs with hcs
        intro hcon
        rw [← hcs] at hcon
        exact hok uids rfl (List.map_eq_nil_iff.mp hcon)
    · exact hI.cacheNE kv hmem cs hcs
  · intro kv hkv cs hcs c hc
    rcases List.mem_cons.mp hkv with rfl | hmem
    · cases r with
      | malformed => exact Option.noConfusion hcs
      | ok uids =>
        simp only [fragmentFor] at hcs
        injection hcs with hcs
        rw [← hcs] at hc
        obtain ⟨u, _, hu⟩ := List.mem_map.mp hc
        rw [← hu]
    · exact hI.cacheTag kv hmem cs hcs c hc
  · show rest.length + s.idleNext ≤ 1
    rw [hrest, hidle]
    decide
  · show ∀ dsc ∈ rest, dsc = mkPageDesc (JSNum.int (L + 1))
    rw [hrest]
    intro dsc h
    exact absurd h (List.not_mem_nil dsc)
  · intro h
    rw [hidle] at h
    exact absurd h (by decide)
  · intro h
    rw [hrest] at h
    exact absurd rfl h
  · intro w' hw'
    rw [hwn] at hw'
    exact Option.noConfusion hw'
  · intro h
    rw [hwn] at h
    exact absurd rfl h
  · intro h
    rw [getGridForPage_cons_ne _ s _ _ rfl _ (by
      intro hcon
      injection hcon with hcon
      omega)]
    exact hI.pIdleFresh h
  · intro h
    rw [getGridForPage_cons_ne _ s _ _ rfl _ (by
      intro hcon
      injection hcon with hcon
      omega)]
    exact hI.pFlightFresh h
  · intro h
    rw [getGridForPage_cons_ne _ s _ _ rfl _ (by
      intro hcon
      injection hcon with hcon
      omega)]
    exact hI.pWaitFresh h

/-- The conclusion every step establishes: the invariant again (with the
window possibly widened one page on one side), and the log extended by a
delta whose splices account exactly for the grid growth. -/
def StepGoal (s s' : CState) (F L : Int) : Prop :=
  ∃ F' L' δ, F' ≤ F ∧ L ≤ L' ∧ InvFL s' F' L' ∧ s'.log = s.log ++ δ
    ∧ s'.grid = prevJoin (prevSpl δ) ++ s.grid ++ nextJoin (nextSpl δ)
    ∧ NextChain L L' (nextSpl δ) ∧ PrevChain F F' (prevSpl δ)

theorem stepGoal_noop (s : CState) (F L : Int) (hI : InvFL s F L) : StepGoal s s F L :=
  ⟨F, L, [], le_refl F, le_refl L, hI, by simp,
    by simp [prevSpl, nextSpl, prevJoin, nextJoin], rfl, rfl⟩

theorem stepGoal_nosplice (s s' : CState) (F L : Int) (hI' : InvFL s' F L)
    (δ : List LogEntry) (hlog : s'.log = s.log ++ δ) (hgrid : s'.grid = s.grid)
    (hn : nextSpl δ = []) (hp : prevSpl δ = []) : StepGoal s s' F L := by
  refine ⟨F, L, δ, le_refl F, le_refl L, hI', hlog, ?_, ?_, ?_⟩
  · rw [hn, hp, hgrid]
    simp [prevJoin, nextJoin]
  · rw [hn]
    rfl
  · rw [hp]
    rfl

/-- The cached grid of page `p` is non-empty and tagged with `p`. -/
theorem cache_els_facts (s : CState) (F L : Int) (hI : InvFL s F L) (p : JSNum)
    (els : List Card) (h : getGridForPage s p = some els) :
    els ≠ [] ∧ ∀ c ∈ els, c.page = p := by
  have hmem := getGridForPage_some_mem s p els h
  exact ⟨hI.cacheNE _ hmem els rfl, fun c hc => hI.cacheTag _ hmem els rfl c hc⟩

theorem invStep_intersect_next (s : CState) (F L : Int) (hI : InvFL s F L) :
    StepGoal s (renderNextPage s) F L := by
  have hdesc := getPage_next_int s L hI.hL
  cases hsu : shouldUsePage (some (mkPageDesc (JSNum.int (L + 1)))) s.lastPage with
  | false =>
    rw [renderNextPage_guard s _ hdesc hsu]
    exact stepGoal_noop s F L hI
  | true =>
    cases hc : getGridForPage s (JSNum.int (L + 1)) with
    | some els =>
      obtain ⟨hne, htags⟩ := cache_els_facts s F L hI _ els hc
      have hflight : s.inFlightNext = [] := by
        by_contra hcon
        rw [hI.nFlightFresh hcon] at hc
        exact Option.noConfusion hc
      have hidle : s.idleNext = 0 := by
        by_contra hcon
        rw [hI.nIdleFresh (by omega)] at hc
        exact Option.noConfusion hc
      have hwait : s.waitNext = none := by
        cases hwv : s.waitNext with
        | none => rfl
        | some w =>
          rw [hI.nWaitFresh (by rw [hwv]; exact fun hcon => Option.noConfusion hcon)] at hc
          exact Option.noConfusion hc
      rw [renderNextPage_hit s _ els hdesc hsu hc]
      refine ⟨F, L + 1,
        [LogEntry.spliced Dir.next (mkPageDesc (JSNum.int (L + 1))).page els,
         LogEntry.pushed (mkPageDesc (JSNum.int (L + 1))).page],
        le_refl F, by omega, ?_, rfl, ?_, ?_, ?_⟩
      · exact invFL_spliceNext s F L _ els hI hflight hidle hwait hne htags
      · show s.grid ++ els
          = prevJoin (prevSpl _) ++ s.grid ++ nextJoin (nextSpl _)
        simp [prevSpl, nextSpl, prevJoin, nextJoin]
      · exact ⟨rfl, hne, rfl⟩
      · rfl
    | none =>
      rw [renderNextPage_miss s _ hdesc hsu hc]
      refine stepGoal_nosplice s _ F L ?_
        [LogEntry.suspended Dir.next (mkPageDesc (JSNum.int (L + 1))).page] rfl rfl rfl rfl
      refine
        { hF := hI.hF, hL := hI.hL, hFL := hI.hFL
          cacheKey := hI.cacheKey, cacheNE := hI.cacheNE, cacheTag := hI.cacheTag
          nSum := hI.nSum, nPage := hI.nPage
          nIdleFresh := fun h => hI.nIdleFresh h
          nFlightFresh := fun h => hI.nFlightFresh h
          nWaitPage := ?_, nWaitFresh := ?_
          pSum := hI.pSum, pPage := hI.pPage
          pIdleFresh := fun h => hI.pIdleFresh h
          pFlightFresh := fun h => hI.pFlightFresh h
          pWaitPage := hI.pWaitPage
          pWaitFresh := fun h => hI.pWaitFresh h }
      · intro w hw
        injection hw with hw
        exact hw.symm
      · intro _
        exact hc

theorem invStep_intersect_prev (s : CState) (F L : Int) (hI : InvFL s F L) :
    StepGoal s (renderPreviousPage s) F L := by
  have hdesc := getPage_prev_int s F hI.hF
  cases hsu : shouldUsePage (some (mkPageDesc (JSNum.int (F - 1)))) s.lastPage with
  | false =>
    rw [renderPreviousPage_guard s _ hdesc hsu]
    exact stepGoal_noop s F L hI
  | true =>
    cases hc : getGridForPage s (JSNum.int (F - 1)) with
    | some els =>
      obtain ⟨hne, htags⟩ := cache_els_facts s F L hI _ els hc
      have hflight : s.inFlightPrev = [] := by
        by_contra hcon
        rw [hI.pFlightFresh hcon] at hc
        exact Option.noConfusion hc
      have hidle : s.idlePrev = 0 := by
        by_contra hcon
        rw [hI.pIdleFresh (by omega)] at hc
        exact Option.noConfusion hc
      have hwait : s.waitPrev = none := by
        cases hwv : s.waitPrev with
        | none => rfl
        | some w =>
          rw [hI.pWaitFresh (by rw [hwv]; exact fun hcon => Option.noConfusion hcon)] at hc
          exact Option.noConfusion hc
      rw [renderPreviousPage_hit s _ els hdesc hsu hc]
      refine ⟨F - 1, L,
        [LogEntry.spliced Dir.prev (mkPageDesc (JSNum.int (F - 1))).page els,
         LogEntry.pushed (mkPageDesc (JSNum.int (F - 1))).page],
        by omega, le_refl L, ?_, rfl, ?_, ?_, ?_⟩
      · exact invFL_splicePrev s F L _ els hI hflight hidle hwait hne htags
      · show els ++ s.grid
          = prevJoin (prevSpl _) ++ s.grid ++ nextJoin (nextSpl _)
        simp [prevSpl, nextSpl, prevJoin, nextJoin]
      · rfl
      · exact ⟨rfl, hne, rfl⟩
    | none =>
      rw [renderPreviousPage_miss s _ hdesc hsu hc]
      refine stepGoal_nosplice s _ F L ?_
        [LogEntry.suspended Dir.prev (mkPageDesc (JSNum.int (F - 1))).page] rfl rfl rfl rfl
      refine
        { hF := hI.hF, hL := hI.hL, hFL := hI.hFL
          cacheKey := hI.cacheKey, cacheNE := hI.cacheNE, cacheTag := hI.cacheTag
          nSum := hI.nSum, nPage := hI.nPage
          nIdleFresh := fun h => hI.nIdleFresh h
          nFlightFresh := fun h => hI.nFlightFresh h
          nWaitPage := hI.nWaitPage
          nWaitFresh := fun h => hI.nWaitFresh h
          pSum := hI.pSum, pPage := hI.pPage
          pIdleFresh := fun h => hI.pIdleFresh h
          pFlightFresh := fun h => hI.pFlightFresh h
          pWaitPage := ?_, pWaitFresh := ?_ }
      · intro w hw
        injection hw with hw
        exact hw.symm
      · intro _
        exact hc

/-- Caching the resolved fragment of the in-flight previous page; mirror
of `invFL_resolveNextCore`. -/
theorem invFL_resolvePrevCore (s : CState) (F L : Int) (r : NetResult)
    (rest : List PageDesc) (lg : List LogEntry) (w : Option PageDesc)
    (hI : InvFL s F L)
    (hfl : s.inFlightPrev = mkPageDesc (JSNum.int (F - 1)) :: rest)
    (hok : ∀ uids, r = NetResult.ok uids → uids ≠ [])
    (hwn : w = none) :
    InvFL { s with
        pages := (JSNum.int (F - 1), fragmentFor (JSNum.int (F - 1)) r) :: s.pages,
        inFlightPrev := rest, waitPrev := w, log := lg } F L := by
  have hFLs := hI.hFL
  have hsum := hI.pSum
  rw [hfl] at hsum
  have hrest : rest = [] := by
    cases rest with
    | nil => rfl
    | cons a b =>
      simp only [List.length_cons] at hsum
      omega
  have hidle : s.idlePrev = 0 := by
    simp only [List.length_cons] at hsum
    omega
  refine
    { hF := hI.hF, hL := hI.hL, hFL := hI.hFL
      cacheKey := ?_, cacheNE := ?_, cacheTag := ?_
      pSum := ?_, pPage := ?_, pIdleFresh := ?_, pFlightFresh := ?_
      pWaitPage := ?_, pWaitFresh := ?_
      nSum := hI.nSum, nPage := hI.nPage
      nIdleFresh := ?_, nFlightFresh := ?_, nWaitPage := hI.nWaitPage, nWaitFresh := ?_ }
  · intro kv hkv
    rcases List.mem_cons.mp hkv with rfl | hmem
    · exact ⟨F - 1, rfl, by omega, by omega⟩
    · exact hI.cacheKey kv hmem
  · intro kv hkv cs hcs
    rcases List.mem_cons.mp hkv with rfl | hmem
    · cases r with
      | malformed => exact Option.noConfusion hcs
      | ok uids =>
        simp only [fragmentFor] at hcs
        injection hcs with hcs
        intro hcon
        rw [← hcs] at hcon
        exact hok uids rfl (List.map_eq_nil_iff.mp hcon)
    · exact hI.cacheNE kv hmem cs hcs
  · intro kv hkv cs hcs c hc
    rcases List.mem_cons.mp hkv with rfl | hmem
    · cases r with
      | malformed => exact Option.noConfusion hcs
      | ok uids =>
        simp only [fragmentFor] at hcs
        injection hcs with hcs
        rw [← hcs] at hc
        obtain ⟨u, _, hu⟩ := List.mem_map.mp hc
        rw [← hu]
    · exact hI.cacheTag kv hmem cs hcs c hc
  · intro h
    rw [getGridForPage_cons_ne _ s _ _ rfl _ (by
      intro hcon
      injection hcon with hcon
      omega)]
    exact hI.nIdleFresh h
  · intro h
    rw [getGridForPage_cons_ne _ s _ _ rfl _ (by
      intro hcon
      injection hcon with hcon
      omega)]
    exact hI.nFlightFresh h
  · intro h
    rw [getGridForPage_cons_ne _ s _ _ rfl _ (by
      intro hcon
      injection hcon with hcon
      omega)]
    exact hI.nWaitFresh h
  · show rest.length + s.idlePrev ≤ 1
    rw [hrest, hidle]
    decide
  · show ∀ dsc ∈ rest, dsc = mkPageDesc (JSNum.int (F - 1))
    rw [hrest]
    intro dsc h
    exact absurd h (List.not_mem_nil dsc)
  · intro h
    rw [hidle] at h
    exact absurd h (by decide)
  · intro h
    rw [hrest] at h
    exact absurd rfl h
  · intro w' hw'
    rw [hwn] at hw'
    exact Option.noConfusion hw'
  · intro h
    rw [hwn] at h
    exact absurd rfl h

theorem nextFlight_single (s : CState) (F L : Int) (hI : InvFL s F L)
    (desc : PageDesc) (rest : List PageDesc)
    (hfl : s.inFlightNext = desc :: rest) : rest = [] ∧ s.idleNext = 0 := by
  have hsum := hI.nSum
  rw [hfl] at hsum
  simp only [List.length_cons] at hsum
  refine ⟨?_, by omega⟩
  cases rest with
  | nil => rfl
  | cons a b =>
    simp only [List.length_cons] at hsum
    omega

theorem prevFlight_single (s : CState) (F L : Int) (hI : InvFL s F L)
    (desc : PageDesc) (rest : List PageDesc)
    (hfl : s.inFlightPrev = desc :: rest) : rest = [] ∧ s.idlePrev = 0 := by
  have hsum := hI.pSum
  rw [hfl] at hsum
  simp only [List.length_cons] at hsum
  refine ⟨?_, by omega⟩
  cases rest with
  | nil => rfl
  | cons a b =>
    simp only [List.length_cons] at hsum
    omega

theorem invStep_net_next (s : CState) (F L : Int) (r : NetResult) (hI : InvFL s F L)
    (hok : ∀ uids, r = NetResult.ok uids → uids ≠ []) :
    StepGoal s (fetchResolveNext r s) F L := by
  cases hfl : s.inFlightNext with
  | nil =>
    rw [fetchResolveNext_nil s r hfl]
    exact stepGoal_noop s F L hI
  | cons desc rest =>
    have hdesc : desc = mkPageDesc (JSNum.int (L + 1)) :=
      hI.nPage desc (by rw [hfl]; exact List.mem_cons_self _ _)
    subst hdesc
    obtain ⟨hrest, hidle⟩ := nextFlight_single s F L hI _ rest hfl
    cases hw : s.waitNext with
    | none =>
      rw [fetchResolveNext_noWait s r _ rest hfl hw]
      refine stepGoal_nosplice s _ F L ?_ [] (by simp) rfl rfl rfl
      exact hw ▸ invFL_resolveNextCore s F L r rest s.log s.waitNext hI hfl hok hw
    | some w =>
      have hwp : w = mkPageDesc (JSNum.int (L + 1)) := hI.nWaitPage w hw
      subst hwp
      rw [fetchResolveNext_wait s r _ rest _ hfl hw]
      dsimp only
      have hs2inv : InvFL { s with
          pages := ((mkPageDesc (JSNum.int (L + 1))).page,
            fragmentFor (mkPageDesc (JSNum.int (L + 1))).page r) :: s.pages,
          inFlightNext := rest, waitNext := none,
          log := s.log
            ++ [LogEntry.resumed Dir.next (mkPageDesc (JSNum.int (L + 1))).page] } F L :=
        invFL_resolveNextCore s F L r rest _ none hI hfl hok rfl
      have hfrag : getGridForPage { s with
          pages := ((mkPageDesc (JSNum.int (L + 1))).page,
            fragmentFor (mkPageDesc (JSNum.int (L + 1))).page r) :: s.pages,
          inFlightNext := rest, waitNext := none,
          log := s.log
            ++ [LogEntry.resumed Dir.next (mkPageDesc (JSNum.int (L + 1))).page] }
          ((mkPageDesc (JSNum.int (L + 1))).page)
          = fragmentFor (mkPageDesc (JSNum.int (L + 1))).page r :=
        getGridForPage_of_lookup_some _ _ _ (lookupPage_cons_self _ _ _)
      cases hg2 : getGridForPage { s with
          pages := ((mkPageDesc (JSNum.int (L + 1))).page,
            fragmentFor (mkPageDesc (JSNum.int (L + 1))).page r) :: s.pages,
          inFlightNext := rest, waitNext := none,
          log := s.log
            ++ [LogEntry.resumed Dir.next (mkPageDesc (JSNum.int (L + 1))).page] }
          ((mkPageDesc (JSNum.int (L + 1))).page) with
      | none =>
        refine stepGoal_nosplice s _ F L hs2inv
          [LogEntry.resumed Dir.next (mkPageDesc (JSNum.int (L + 1))).page] rfl rfl rfl rfl
      | some els =>
        rw [hg2] at hfrag
        have hfrag' : fragmentFor (mkPageDesc (JSNum.int (L + 1))).page r = some els :=
          hfrag.symm
        have hok2 : els ≠ [] ∧ ∀ c ∈ els, c.page = JSNum.int (L + 1) := by
          cases r with
          | malformed => exact Option.noConfusion hfrag'
          | ok uids =>
            simp only [fragmentFor] at hfrag'
            injection hfrag' with hfrag'
            constructor
            · intro hcon
              rw [← hfrag'] at hcon
              exact hok uids rfl (List.map_eq_nil_iff.mp hcon)
            · intro c hc
              rw [← hfrag'] at hc
              obtain ⟨u, _, hu⟩ := List.mem_map.mp hc
              rw [← hu]
              rfl
        refine ⟨F, L + 1,
          [LogEntry.resumed Dir.next (mkPageDesc (JSNum.int (L + 1))).page,
           LogEntry.spliced Dir.next (mkPageDesc (JSNum.int (L + 1))).page els,
           LogEntry.pushed (mkPageDesc (JSNum.int (L + 1))).page],
          le_refl F, by omega, ?_, ?_, ?_, ?_, ?_⟩
        · exact invFL_spliceNext _ F L _ els hs2inv hrest hidle rfl hok2.1 hok2.2
        · show ((s.log ++ [LogEntry.resumed Dir.next (mkPageDesc (JSNum.int (L + 1))).page])
            ++ [LogEntry.spliced Dir.next (mkPageDesc (JSNum.int (L + 1))).page els,
                LogEntry.pushed (mkPageDesc (JSNum.int (L + 1))).page]) = _
          simp
        · show s.grid ++ els = _
          simp [prevSpl, nextSpl, prevJoin, nextJoin]
        · exact ⟨rfl, hok2.1, rfl⟩
        · rfl

theorem invStep_net_prev (s : CState) (F L : Int) (r : NetResult) (hI : InvFL s F L)
    (hok : ∀ uids, r = NetResult.ok uids → uids ≠ []) :
    StepGoal s (fetchResolvePrev r s) F L := by
  cases hfl : s.inFlightPrev with
  | nil =>
    rw [fetchResolvePrev_nil s r hfl]
    exact stepGoal_noop s F L hI
  | cons desc rest =>
    have hdesc : desc = mkPageDesc (JSNum.int (F - 1)) :=
      hI.pPage desc (by rw [hfl]; exact List.mem_cons_self _ _)
    subst hdesc
    obtain ⟨hrest, hidle⟩ := prevFlight_single s F L hI _ rest hfl
    cases hw : s.waitPrev with
    | none =>
      rw [fetchResolvePrev_noWait s r _ rest hfl hw]
      refine stepGoal_nosplice s _ F L ?_ [] (by simp) rfl rfl rfl
      exact hw ▸ invFL_resolvePrevCore s F L r rest s.log s.waitPrev hI hfl hok hw
    | some w =>
      have hwp : w = mkPageDesc (JSNum.int (F - 1)) := hI.pWaitPage w hw
      subst hwp
      rw [fetchResolvePrev_wait s r _ rest _ hfl hw]
      dsimp only
      have hs2inv : InvFL { s with
          pages := ((mkPageDesc (JSNum.int (F - 1))).page,
            fragmentFor (mkPageDesc (JSNum.int (F - 1))).page r) :: s.pages,
          inFlightPrev := rest, waitPrev := none,
          log := s.log
            ++ [LogEntry.resumed Dir.prev (mkPageDesc (JSNum.int (F - 1))).page] } F L :=
        invFL_resolvePrevCore s F L r rest _ none hI hfl hok rfl
      have hfrag : getGridForPage { s with
          pages := ((mkPageDesc (JSNum.int (F - 1))).page,
            fragmentFor (mkPageDesc (JSNum.int (F - 1))).page r) :: s.pages,
          inFlightPrev := rest, waitPrev := none,
          log := s.log
            ++ [LogEntry.resumed Dir.prev (mkPageDesc (JSNum.int (F - 1))).page] }
          ((mkPageDesc (JSNum.int (F - 1))).page)
          = fragmentFor (mkPageDesc (JSNum.int (F - 1))).page r :=
        getGridForPage_of_lookup_some _ _ _ (lookupPage_cons_self _ _ _)
      cases hg2 : getGridForPage { s with
          pages := ((mkPageDesc (JSNum.int (F - 1))).page,
            fragmentFor (mkPageDesc (JSNum.int (F - 1))).page r) :: s.pages,
          inFlightPrev := rest, waitPrev := none,
          log := s.log
            ++ [LogEntry.resumed Dir.prev (mkPageDesc (JSNum.int (F - 1))).page] }
          ((mkPageDesc (JSNum.int (F - 1))).page) with
      | none =>
        refine stepGoal_nosplice s _ F L hs2inv
          [LogEntry.resumed Dir.prev (mkPageDesc (JSNum.int (F - 1))).page] rfl rfl rfl rfl
      | some els =>
        rw [hg2] at hfrag
        have hfrag' : fragmentFor (mkPageDesc (JSNum.int (F - 1))).page r = some els :=
          hfrag.symm
        have hok2 : els ≠ [] ∧ ∀ c ∈ els, c.page = JSNum.int (F - 1) := by
          cases r with
          | malformed => exact Option.noConfusion hfrag'
          | ok uids =>
            simp only [fragmentFor] at hfrag'
            injection hfrag' with hfrag'
            constructor
            · intro hcon
              rw [← hfrag'] at hcon
              exact hok uids rfl (List.map_eq_nil_iff.mp hcon)
            · intro c hc
              rw [← hfrag'] at hc
              obtain ⟨u, _, hu⟩ := List.mem_map.mp hc
              rw [← hu]
              rfl
        refine ⟨F - 1, L,
          [LogEntry.resumed Dir.prev (mkPageDesc (JSNum.int (F - 1))).page,
           LogEntry.spliced Dir.prev (mkPageDesc (JSNum.int (F - 1))).page els,
           LogEntry.pushed (mkPageDesc (JSNum.int (F - 1))).page],
          by omega, le_refl L, ?_, ?_, ?_, ?_, ?_⟩
        · exact invFL_splicePrev _ F L _ els hs2inv hrest hidle rfl hok2.1 hok2.2
        · show ((s.log ++ [LogEntry.resumed Dir.prev (mkPageDesc (JSNum.int (F - 1))).page])
            ++ [LogEntry.spliced Dir.prev (mkPageDesc (JSNum.int (F - 1))).page els,
                LogEntry.pushed (mkPageDesc (JSNum.int (F - 1))).page]) = _
          simp
        · show els ++ s.grid = _
          simp [prevSpl, nextSpl, prevJoin, nextJoin]
        · rfl
        · exact ⟨rfl, hok2.1, rfl⟩

theorem invStep_idle_next (s : CState) (F L : Int) (hI : InvFL s F L) :
    StepGoal s (idleFire Dir.next s) F L := by
  by_cases hz : s.idleNext = 0
  · rw [idleFire_next_zero s hz]
    exact stepGoal_noop s F L hI
  · rw [idleFire_next_pos s hz]
    have hfl : s.inFlightNext = [] := by
      have hsum := hI.nSum
      cases hc : s.inFlightNext with
      | nil => rfl
      | cons a b =>
        rw [hc] at hsum
        simp only [List.length_cons] at hsum
        omega
    have hid1 : s.idleNext = 1 := by
      have hsum := hI.nSum
      omega
    have hdesc : getPage Dir.next ({ s with idleNext := s.idleNext - 1 } : CState).grid
        = some (mkPageDesc (JSNum.int (L + 1))) := getPage_next_int s L hI.hL
    cases hsu : shouldUsePage (some (mkPageDesc (JSNum.int (L + 1))))
        ({ s with idleNext := s.idleNext - 1 } : CState).lastPage with
    | false =>
      rw [fetchPage_guard Dir.next _ _ hdesc hsu]
      refine stepGoal_nosplice s _ F L ?_ [] (by simp) rfl rfl rfl
      refine
        { hF := hI.hF, hL := hI.hL, hFL := hI.hFL, cacheKey := hI.cacheKey
          cacheNE := hI.cacheNE, cacheTag := hI.cacheTag
          nSum := ?_, nPage := hI.nPage, nIdleFresh := ?_, nFlightFresh := ?_
          nWaitPage := hI.nWaitPage, nWaitFresh := fun h => hI.nWaitFresh h
          pSum := hI.pSum, pPage := hI.pPage
          pIdleFresh := fun h => hI.pIdleFresh h
          pFlightFresh := fun h => hI.pFlightFresh h
          pWaitPage := hI.pWaitPage, pWaitFresh := fun h => hI.pWaitFresh h }
      · show s.inFlightNext.length + (s.idleNext - 1) ≤ 1
        rw [hfl, hid1]
        decide
      · intro h
        have h2 : 1 ≤ s.idleNext - 1 := h
        rw [hid1] at h2
        exact absurd h2 (by decide)
      · intro h
        exact absurd hfl h
    | true =>
      rw [fetchPage_issue_next _ _ hdesc hsu]
      refine stepGoal_nosplice s _ F L ?_
        [LogEntry.requested Dir.next (mkPageDesc (JSNum.int (L + 1))).page] rfl rfl rfl rfl
      refine
        { hF := hI.hF, hL := hI.hL, hFL := hI.hFL, cacheKey := hI.cacheKey
          cacheNE := hI.cacheNE, cacheTag := hI.cacheTag
          nSum := ?_, nPage := ?_, nIdleFresh := ?_, nFlightFresh := ?_
          nWaitPage := hI.nWaitPage, nWaitFresh := fun h => hI.nWaitFresh h
          pSum := hI.pSum, pPage := hI.pPage
          pIdleFresh := fun h => hI.pIdleFresh h
          pFlightFresh := fun h => hI.pFlightFresh h
          pWaitPage := hI.pWaitPage, pWaitFresh := fun h => hI.pWaitFresh h }
      · show (s.inFlightNext ++ [mkPageDesc (JSNum.int (L + 1))]).length
          + (s.idleNext - 1) ≤ 1
        rw [hfl, hid1]
        simp
      · show ∀ dsc ∈ s.inFlightNext ++ [mkPageDesc (JSNum.int (L + 1))],
          dsc = mkPageDesc (JSNum.int (L + 1))
        rw [hfl]
        intro dsc h
        simp only [List.nil_append, List.mem_singleton] at h
        exact h
      · intro h
        have h2 : 1 ≤ s.idleNext - 1 := h
        rw [hid1] at h2
        exact absurd h2 (by decide)
      · intro _
        exact hI.nIdleFresh (by omega)

theorem invStep_idle_prev (s : CState) (F L : Int) (hI : InvFL s F L) :
    StepGoal s (idleFire Dir.prev s) F L := by
  by_cases hz : s.idlePrev = 0
  · rw [idleFire_prev_zero s hz]
    exact stepGoal_noop s F L hI
  · rw [idleFire_prev_pos s hz]
    have hfl : s.inFlightPrev = [] := by
      have hsum := hI.pSum
      cases hc : s.inFlightPrev with
      | nil => rfl
      | cons a b =>
        rw [hc] at hsum
        simp only [List.length_cons] at hsum
        omega
    have hid1 : s.idlePrev = 1 := by
      have hsum := hI.pSum
      omega
    have hdesc : getPage Dir.prev ({ s with idlePrev := s.idlePrev - 1 } : CState).grid
        = some (mkPageDesc (JSNum.int (F - 1))) := getPage_prev_int s F hI.hF
    cases hsu : shouldUsePage (some (mkPageDesc (JSNum.int (F - 1))))
        ({ s with idlePrev := s.idlePrev - 1 } : CState).lastPage with
    | false =>
      rw [fetchPage_guard Dir.prev _ _ hdesc hsu]
      refine stepGoal_nosplice s _ F L ?_ [] (by simp) rfl rfl rfl
      refine
        { hF := hI.hF, hL := hI.hL, hFL := hI.hFL, cacheKey := hI.cacheKey
          cacheNE := hI.cacheNE, cacheTag := hI.cacheTag
          pSum := ?_, pPage := hI.pPage, pIdleFresh := ?_, pFlightFresh := ?_
          pWaitPage := hI.pWaitPage, pWaitFresh := fun h => hI.pWaitFresh h
          nSum := hI.nSum, nPage := hI.nPage
          nIdleFresh := fun h => hI.nIdleFresh h
          nFlightFresh := fun h => hI.nFlightFresh h
          nWaitPage := hI.nWaitPage, nWaitFresh := fun h => hI.nWaitFresh h }
      · show s.inFlightPrev.length + (s.idlePrev - 1) ≤ 1
        rw [hfl, hid1]
        decide
      · intro h
        have h2 : 1 ≤ s.idlePrev - 1 := h
        rw [hid1] at h2
        exact absurd h2 (by decide)
      · intro h
        exact absurd hfl h
    | true =>
      rw [fetchPage_issue_prev _ _ hdesc hsu]
      refine stepGoal_nosplice s _ F L ?_
        [LogEntry.requested Dir.prev (mkPageDesc (JSNum.int (F - 1))).page] rfl rfl rfl rfl
      refine
        { hF := hI.hF, hL := hI.hL, hFL := hI.hFL, cacheKey := hI.cacheKey
          cacheNE := hI.cacheNE, cacheTag := hI.cacheTag
          pSum := ?_, pPage := ?_, pIdleFresh := ?_, pFlightFresh := ?_
          pWaitPage := hI.pWaitPage, pWaitFresh := fun h => hI.pWaitFresh h
          nSum := hI.nSum, nPage := hI.nPage
          nIdleFresh := fun h => hI.nIdleFresh h
          nFlightFresh := fun h => hI.nFlightFresh h
          nWaitPage := hI.nWaitPage, nWaitFresh := fun h => hI.nWaitFresh h }
      · show (s.inFlightPrev ++ [mkPageDesc (JSNum.int (F - 1))]).length
          + (s.idlePrev - 1) ≤ 1
        rw [hfl, hid1]
        simp
      · show ∀ dsc ∈ s.inFlightPrev ++ [mkPageDesc (JSNum.int (F - 1))],
          dsc = mkPageDesc (JSNum.int (F - 1))
        rw [hfl]
        intro dsc h
        simp only [List.nil_append, List.mem_singleton] at h
        exact h
      · intro h
        have h2 : 1 ≤ s.idlePrev - 1 := h
        rw [hid1] at h2
        exact absurd h2 (by decide)
      · intro _
        exact hI.pIdleFresh (by omega)

/-- Every event preserves the invariant, widening the window by at most
one page, and extends the log so that its splices account exactly for
the grid growth. -/
theorem invStep (s : CState) (F L : Int) (e : Ev) (hI : InvFL s F L)
    (hE : evOK e = true) : StepGoal s (step s e) F L := by
  cases e with
  | intersect d =>
    cases d
    · exact invStep_intersect_next s F L hI
    · exact invStep_intersect_prev s F L hI
  | net d r =>
    have hok : ∀ uids, r = NetResult.ok uids → uids ≠ [] := by
      intro uids hr
      subst hr
      simp only [evOK] at hE
      intro hcon
      subst hcon
      simp at hE
    cases d
    · exact invStep_net_next s F L r hI hok
    · exact invStep_net_prev s F L r hI hok
  | idle d =>
    cases d
    · exact invStep_idle_next s F L hI
    · exact invStep_idle_prev s F L hI

/-- The run-level invariant: after any well-behaved trace, the invariant
holds for a window `[F', L']` containing the original one, the log has
grown by `Δ`, the grid is the original grid with the prev splices of `Δ`
stacked in front and the next splices appended behind, and the splice
pages of each direction climb (respectively descend) one page at a
time. -/
theorem invRun (evs : List Ev) (s : CState) (F L : Int) (hI : InvFL s F L)
    (hT : ∀ e ∈ evs, evOK e = true) :
    ∃ F' L' Δ, F' ≤ F ∧ L ≤ L' ∧ InvFL (run s evs) F' L'
      ∧ (run s evs).log = s.log ++ Δ
      ∧ (run s evs).grid = prevJoin (prevSpl Δ) ++ s.grid ++ nextJoin (nextSpl Δ)
      ∧ NextChain L L' (nextSpl Δ) ∧ PrevChain F F' (prevSpl Δ) := by
  induction evs generalizing s F L with
  | nil =>
    exact ⟨F, L, [], le_refl F, le_refl L, hI, by rw [run_nil]; simp,
      by rw [run_nil]; simp [prevSpl, nextSpl, prevJoin, nextJoin], rfl, rfl⟩
  | cons e rest ih =>
    obtain ⟨F1, L1, δ, hF1, hL1, hI1, hlog1, hgrid1, hnc1, hpc1⟩ :=
      invStep s F L e hI (hT e (List.mem_cons_self e rest))
    obtain ⟨F', L', Δ, hF', hL', hI', hlog', hgrid', hnc', hpc'⟩ :=
      ih (step s e) F1 L1 hI1 (fun e2 h2 => hT e2 (List.mem_cons_of_mem e h2))
    refine ⟨F', L', δ ++ Δ, by omega, by omega, hI', ?_, ?_, ?_, ?_⟩
    · rw [run_cons, hlog', hlog1, List.append_assoc]
    · rw [run_cons, hgrid', hgrid1, prevSpl_append, nextSpl_append, prevJoin_append,
        nextJoin_append]
      simp [List.append_assoc]
    · rw [nextSpl_append]
      exact nextChain_append L L1 L' _ _ hnc1 hnc'
    · rw [prevSpl_append]
      exact prevChain_append F F1 F' _ _ hpc1 hpc'

/-- A state with an empty cache, no waiters, no idle callbacks, and at
most the two connect prefetches in flight satisfies the invariant. -/
theorem invFL_clean (s : CState) (F L : Int)
    (hF : headPage s = some (JSNum.int F)) (hL : lastGridPage s = some (JSNum.int L))
    (hFL : F ≤ L) (hpages : s.pages = [])
    (hwn : s.waitNext = none) (hwp : s.waitPrev = none)
    (hin : s.idleNext = 0) (hip : s.idlePrev = 0)
    (hfn : s.inFlightNext = [] ∨ s.inFlightNext = [mkPageDesc (JSNum.int (L + 1))])
    (hfp : s.inFlightPrev = [] ∨ s.inFlightPrev = [mkPageDesc (JSNum.int (F - 1))]) :
    InvFL s F L := by
  have hnone : ∀ p, getGridForPage s p = none := fun p =>
    getGridForPage_of_lookup_none s p (by rw [hpages]; rfl)
  refine
    { hF := hF, hL := hL, hFL := hFL
      cacheKey := ?_, cacheNE := ?_, cacheTag := ?_
      nSum := ?_, nPage := ?_, nIdleFresh := fun _ => hnone _
      nFlightFresh := fun _ => hnone _, nWaitPage := ?_, nWaitFresh := fun _ => hnone _
      pSum := ?_, pPage := ?_, pIdleFresh := fun _ => hnone _
      pFlightFresh := fun _ => hnone _, pWaitPage := ?_, pWaitFresh := fun _ => hnone _ }
  · intro kv hkv
    rw [hpages] at hkv
    exact absurd hkv (List.not_mem_nil kv)
  · intro kv hkv
    rw [hpages] at hkv
    exact absurd hkv (List.not_mem_nil kv)
  · intro kv hkv
    rw [hpages] at hkv
    exact absurd hkv (List.not_mem_nil kv)
  · rcases hfn with h | h <;> rw [h, hin] <;> simp
  · rcases hfn with h | h <;> rw [h]
    · intro dsc hd
      exact absurd hd (List.not_mem_nil dsc)
    · intro dsc hd
      simp only [List.mem_singleton] at hd
      exact hd
  · intro w hw
    rw [hwn] at hw
    exact Option.noConfusion hw
  · rcases hfp with h | h <;> rw [h, hip] <;> simp
  · rcases hfp with h | h <;> rw [h]
    · intro dsc hd
      exact absurd hd (List.not_mem_nil dsc)
    · intro dsc hd
      simp only [List.mem_singleton] at hd
      exact hd
  · intro w hw
    rw [hwp] at hw
    exact Option.noConfusion hw

/-- `connectedCallback` establishes the invariant, leaves the grid as it
found it, and splices nothing. -/
theorem invConnect (g0 : List Card) (lp : JSNum) (F0 L0 : Int)
    (hF : g0.head?.map Card.page = some (JSNum.int F0))
    (hL : g0.getLast?.map Card.page = some (JSNum.int L0))
    (hFL : F0 ≤ L0) :
    InvFL (connect g0 lp) F0 L0
      ∧ (connect g0 lp).grid = g0
      ∧ nextSpl (connect g0 lp).log = []
      ∧ prevSpl (connect g0 lp).log = [] := by
  have hdn : getPage Dir.next (initState g0 lp).grid
      = some (mkPageDesc (JSNum.int (L0 + 1))) := getPage_next_int (initState g0 lp) L0 hL
  unfold connect
  cases hsu1 : shouldUsePage (some (mkPageDesc (JSNum.int (L0 + 1))))
      (initState g0 lp).lastPage with
  | false =>
    rw [fetchPage_guard Dir.next _ _ hdn hsu1]
    have hdp : getPage Dir.prev (initState g0 lp).grid
        = some (mkPageDesc (JSNum.int (F0 - 1))) := getPage_prev_int (initState g0 lp) F0 hF
    cases hsu2 : shouldUsePage (some (mkPageDesc (JSNum.int (F0 - 1))))
        (initState g0 lp).lastPage with
    | false =>
      rw [fetchPage_guard Dir.prev _ _ hdp hsu2]
      exact ⟨invFL_clean _ F0 L0 hF hL hFL rfl rfl rfl rfl rfl (Or.inl rfl) (Or.inl rfl),
        rfl, rfl, rfl⟩
    | true =>
      rw [fetchPage_issue_prev _ _ hdp hsu2]
      refine ⟨invFL_clean _ F0 L0 hF hL hFL rfl rfl rfl rfl rfl (Or.inl rfl)
        (Or.inr rfl), rfl, ?_, ?_⟩
      · simp [nextSpl_append, nextSpl]
      · simp [prevSpl_append, prevSpl]
  | true =>
    rw [fetchPage_issue_next _ _ hdn hsu1]
    have hdp : getPage Dir.prev ({ initState g0 lp with
        inFlightNext := (initState g0 lp).inFlightNext ++ [mkPageDesc (JSNum.int (L0 + 1))],
        log := (initState g0 lp).log
          ++ [LogEntry.requested Dir.next (mkPageDesc (JSNum.int (L0 + 1))).page] } : CState).grid
        = some (mkPageDesc (JSNum.int (F0 - 1))) := getPage_prev_int _ F0 hF
    cases hsu2 : shouldUsePage (some (mkPageDesc (JSNum.int (F0 - 1))))
        ({ initState g0 lp with
          inFlightNext := (initState g0 lp).inFlightNext ++ [mkPageDesc (JSNum.int (L0 + 1))],
          log := (initState g0 lp).log
            ++ [LogEntry.requested Dir.next
              (mkPageDesc (JSNum.int (L0 + 1))).page] } : CState).lastPage with
    | false =>
      rw [fetchPage_guard Dir.prev _ _ hdp hsu2]
      refine ⟨invFL_clean _ F0 L0 hF hL hFL rfl rfl rfl rfl rfl (Or.inr rfl)
        (Or.inl rfl), rfl, ?_, ?_⟩
      · simp [nextSpl_append, nextSpl]
      · simp [prevSpl_append, prevSpl]
    | true =>
      rw [fetchPage_issue_prev _ _ hdp hsu2]
      refine ⟨invFL_clean _ F0 L0 hF hL hFL rfl rfl rfl rfl rfl (Or.inr rfl)
        (Or.inr rfl), rfl, ?_, ?_⟩
      · simp [nextSpl_append, nextSpl]
      · simp [prevSpl_append, prevSpl]

theorem nextChain_ne (l l2 : Int) (xs : List (JSNum × List Card)) (h : NextChain l l2 xs) :
    ∀ x ∈ xs, x.2 ≠ [] := by
  induction xs generalizing l with
  | nil =>
    intro x hx
    exact absurd hx (List.not_mem_nil x)
  | cons y rest ih =>
    obtain ⟨_, hne, hrest⟩ := h
    intro x hx
    rcases List.mem_cons.mp hx with rfl | hmem
    · exact hne
    · exact ih (l + 1) hrest x hmem

/-! ## C1 — forward splices are ordered and never duplicated -/

/-- C1: for every event trace from a connected component whose initial
grid runs from page `F0` to page `L0` (and any well-behaved renderer
responses, `TraceOK`), the pages of the next-direction splices are
exactly the consecutive run `L0+1, L0+2, …` in order — strictly
increasing, hence non-decreasing with no page spliced twice — every
spliced batch is non-empty, and the final grid is the original cards
with each spliced batch inserted verbatim as one contiguous block
(appended in splice order after the original cards, with the
previous-direction batches stacked in front), so each fragment's cards
keep their original relative order.  This covers every sequence of
forward-only sentinel intersections, since the trace quantifies over all
event interleavings. -/
theorem C1_forward_splices_ordered (g0 : List Card) (lp : JSNum) (F0 L0 : Int)
    (evs : List Ev)
    (hF : g0.head?.map Card.page = some (JSNum.int F0))
    (hL : g0.getLast?.map Card.page = some (JSNum.int L0))
    (hFL : F0 ≤ L0) (hT : TraceOK evs) :
    ∃ Δ, (run (connect g0 lp) evs).log = (connect g0 lp).log ++ Δ
      ∧ (nextSpl Δ).map Prod.fst
          = (List.range (nextSpl Δ).length).map
              (fun (t : ℕ) => JSNum.int (L0 + 1 + (t : Int)))
      ∧ (∀ x ∈ nextSpl Δ, x.2 ≠ [])
      ∧ (run (connect g0 lp) evs).grid
          = prevJoin (prevSpl Δ) ++ g0 ++ nextJoin (nextSpl Δ) := by
  obtain ⟨hIc, hgc, _, _⟩ := invConnect g0 lp F0 L0 hF hL hFL
  obtain ⟨F', L', Δ, _, _, _, hlog, hgrid, hnc, _⟩ :=
    invRun evs (connect g0 lp) F0 L0 hIc hT
  exact ⟨Δ, hlog, nextChain_pages L0 L' _ hnc, nextChain_ne L0 L' _ hnc,
    by rw [hgrid, hgc]⟩

/-- C1 witness: one initial card on page 1, bound 2; the connect prefetch
for page 2 resolves with one card and the next sentinel fires once,
splicing page 2 behind page 1. -/
theorem C1_witness :
    (([{ page := JSNum.int 1, uid := 0 }] : List Card).head?.map Card.page
        = some (JSNum.int 1)
      ∧ ([{ page := JSNum.int 1, uid := 0 }] : List Card).getLast?.map Card.page
        = some (JSNum.int 1)
      ∧ (1 : Int) ≤ 1
      ∧ TraceOK [Ev.net Dir.next (NetResult.ok [7]), Ev.intersect Dir.next])
    ∧ (∃ Δ,
        (run (connect [{ page := JSNum.int 1, uid := 0 }] (JSNum.int 2))
            [Ev.net Dir.next (NetResult.ok [7]), Ev.intersect Dir.next]).log
          = (connect [{ page := JSNum.int 1, uid := 0 }] (JSNum.int 2)).log ++ Δ
        ∧ (nextSpl Δ).map Prod.fst
            = (List.range (nextSpl Δ).length).map
                (fun (t : ℕ) => JSNum.int (1 + 1 + (t : Int)))
        ∧ (∀ x ∈ nextSpl Δ, x.2 ≠ [])
        ∧ (run (connect [{ page := JSNum.int 1, uid := 0 }] (JSNum.int 2))
            [Ev.net Dir.next (NetResult.ok [7]), Ev.intersect Dir.next]).grid
          = prevJoin (prevSpl Δ) ++ [{ page := JSNum.int 1, uid := 0 }]
            ++ nextJoin (nextSpl Δ)) :=
  ⟨⟨rfl, rfl, by decide, by decide⟩,
    C1_forward_splices_ordered [{ page := JSNum.int 1, uid := 0 }] (JSNum.int 2) 1 1
      [Ev.net Dir.next (NetResult.ok [7]), Ev.intersect Dir.next]
      rfl rfl (by decide) (by decide)⟩

/-! ## C3 — at most one fetch per direction in flight -/

/-- C3: in every state reachable from a connected component by any
well-behaved trace, at most one `getSectionHTML` call per direction is
unresolved.  Since the theorem quantifies over every trace, it holds of
every prefix of a run, i.e. at every instant; in particular a fetch is
never issued for a direction while that direction's previous fetch is
unresolved (issuing one would make two unresolved fetches at once). -/
theorem C3_single_fetch_in_flight (g0 : List Card) (lp : JSNum) (F0 L0 : Int)
    (evs : List Ev)
    (hF : g0.head?.map Card.page = some (JSNum.int F0))
    (hL : g0.getLast?.map Card.page = some (JSNum.int L0))
    (hFL : F0 ≤ L0) (hT : TraceOK evs) :
    (run (connect g0 lp) evs).inFlightNext.length ≤ 1
    ∧ (run (connect g0 lp) evs).inFlightPrev.length ≤ 1 := by
  obtain ⟨hIc, _, _, _⟩ := invConnect g0 lp F0 L0 hF hL hFL
  obtain ⟨F', L', Δ, _, _, hI', _, _, _, _⟩ :=
    invRun evs (connect g0 lp) F0 L0 hIc hT
  have h1 := hI'.nSum
  have h2 := hI'.pSum
  exact ⟨by omega, by omega⟩

/-- C3 witness: two rapid previous intersections against a page-2 grid
with bound 3, then the prefetch of page 1 resolves. -/
theorem C3_witness :
    (([{ page := JSNum.int 2, uid := 0 }] : List Card).head?.map Card.page
        = some (JSNum.int 2)
      ∧ ([{ page := JSNum.int 2, uid := 0 }] : List Card).getLast?.map Card.page
        = some (JSNum.int 2)
      ∧ (2 : Int) ≤ 2
      ∧ TraceOK [Ev.intersect Dir.prev, Ev.intersect Dir.prev,
          Ev.net Dir.prev (NetResult.ok [10, 11])])
    ∧ ((run (connect [{ page := JSNum.int 2, uid := 0 }] (JSNum.int 3))
          [Ev.intersect Dir.prev, Ev.intersect Dir.prev,
           Ev.net Dir.prev (NetResult.ok [10, 11])]).inFlightNext.length ≤ 1
      ∧ (run (connect [{ page := JSNum.int 2, uid := 0 }] (JSNum.int 3))
          [Ev.intersect Dir.prev, Ev.intersect Dir.prev,
           Ev.net Dir.prev (NetResult.ok [10, 11])]).inFlightPrev.length ≤ 1) :=
  ⟨⟨rfl, rfl, by decide, by decide⟩,
    C3_single_fetch_in_flight [{ page := JSNum.int 2, uid := 0 }] (JSNum.int 3) 2 2
      [Ev.intersect Dir.prev, Ev.intersect Dir.prev,
       Ev.net Dir.prev (NetResult.ok [10, 11])] rfl rfl (by decide) (by decide)⟩

/-! ## Scroll preservation on prepend (`#renderPreviousPage`, lines 176–196) -/

/-- Absolute document-space top of the `i`-th card of a grid whose content
begins at `gridTop` and whose cards, in order, have the given heights and
are laid out vertically without overlap. -/
def topOfCard (gridTop : ℤ) (heights : List ℤ) (i : ℕ) : ℤ :=
  gridTop + (heights.take i).sum

/-- `getBoundingClientRect().top`: document position minus scroll offset. -/
def rectTop (absTop scrollY : ℤ) : ℤ := absTop - scrollY

/-- The scroll offset that `#renderPreviousPage` passes to
`window.scrollTo` after prepending cards of heights `newHeights` in front
of cards of heights `oldHeights`:

* `scrollTop = window.scrollY` and, when a first card exists,
  `oldHeight = firstElement.getBoundingClientRect().top + window.scrollY`
  are recorded before the prepend;
* after the prepend the same (former first) card sits at index
  `newHeights.length`, and
  `newHeight = firstElement.getBoundingClientRect().top + window.scrollY`
  is measured again;
* the result is `scrollTop + (newHeight - oldHeight)`.

With no first element the method makes no `scrollTo` call, so the offset
stays `window.scrollY`. -/
def renderPreviousScrollTop (gridTop scrollY : ℤ) (oldHeights newHeights : List ℤ) : ℤ :=
  match oldHeights with
  | [] => scrollY
  | _ :: _ =>
    let scrollTop := scrollY
    let oldHeight := rectTop (topOfCard gridTop oldHeights 0) scrollY + scrollY
    let newHeight :=
      rectTop (topOfCard gridTop (newHeights ++ oldHeights) newHeights.length) scrollY + scrollY
    scrollTop + (newHeight - oldHeight)

/-! ## Configuration errors (`get sectionId`, `#observeViewMore`) -/

/-- `get sectionId`: reads the `section-id` attribute and throws when it is
missing or empty (`if (!id) throw new Error(...)`). -/
def sectionId (attr : Option String) : Except String String :=
  match attr with
  | none => Except.error "The section-id attribute is required"
  | some id =>
    if id = "" then Except.error "The section-id attribute is required" else Except.ok id

/-- Which of the component's declarative refs resolved to an element. -/
structure Refs where
  grid : Bool
  viewMorePrevious : Bool
  viewMoreNext : Bool
  cards : Bool
deriving DecidableEq

/-- `#observeViewMore()`, abstracted to whether the two sentinel elements
end up observed: `if (!viewMorePrevious || !viewMoreNext) return;` makes a
missing sentinel ref a silent early return — nothing is thrown. -/
def observeViewMore (r : Refs) : Except String Bool :=
  if r.viewMorePrevious && r.viewMoreNext then Except.ok true else Except.ok false

/-- Whether an `Except` result is a thrown error. -/
def isErr : Except String Bool → Bool
  | Except.error _ => true
  | Except.ok _ => false

/-! ## C5 — viewport-stable prepend -/

theorem threeDigits_length (n : Nat) : (threeDigits n).length = 3 := rfl

/-- C5: for every previous-direction render that prepends cards in front
of a non-empty grid, the scroll offset passed to `window.scrollTo` equals
the offset recorded before the prepend plus the vertical displacement of
the element that was first in the grid before insertion (conjunct 1,
with the displacement also identified as the total height of the
prepended cards, conjunct 3); consequently the previously-first card
keeps its position relative to the viewport (conjunct 2). -/
theorem C5_viewport_stable_prepend (gridTop scrollY : ℤ) (oldHeights newHeights : List ℤ)
    (hne : oldHeights ≠ []) :
    renderPreviousScrollTop gridTop scrollY oldHeights newHeights
      = scrollY + (topOfCard gridTop (newHeights ++ oldHeights) newHeights.length
          - topOfCard gridTop oldHeights 0)
    ∧ topOfCard gridTop (newHeights ++ oldHeights) newHeights.length
        - renderPreviousScrollTop gridTop scrollY oldHeights newHeights
      = topOfCard gridTop oldHeights 0 - scrollY
    ∧ renderPreviousScrollTop gridTop scrollY oldHeights newHeights = scrollY + newHeights.sum := by
  match oldHeights, hne with
  | h0 :: rest, _ =>
    have htake : (newHeights ++ h0 :: rest).take newHeights.length = newHeights := by
      rw [List.take_left]
    unfold renderPreviousScrollTop rectTop topOfCard
    rw [htake]
    refine ⟨by ring, by ring, ?_⟩
    simp only [List.take_zero, List.sum_nil]
    ring

/-- C5 witness: grid top 40, scroll offset 300, two existing cards of
heights 50 and 70, two prepended cards of heights 30 and 20. -/
theorem C5_witness :
    ([50, 70] : List ℤ) ≠ []
    ∧ (renderPreviousScrollTop 40 300 [50, 70] [30, 20]
        = 300 + (topOfCard 40 ([30, 20] ++ [50, 70]) 2 - topOfCard 40 [50, 70] 0)
      ∧ topOfCard 40 ([30, 20] ++ [50, 70]) 2 - renderPreviousScrollTop 40 300 [50, 70] [30, 20]
        = topOfCard 40 [50, 70] 0 - 300
      ∧ renderPreviousScrollTop 40 300 [50, 70] [30, 20] = 300 + ([30, 20] : List ℤ).sum) :=
  ⟨by decide, C5_viewport_stable_prepend 40 300 [50, 70] [30, 20] (by decide)⟩

/-! ## C6 — adaptive aspect ratio value -/

/-- C6: in adaptive mode the applied ratio string is `width / height`
clamped to `[0.1, 10]` (conjunct 1 rewrites the source's
`Math.max(0.1, Math.min(10, rawRatio))` into that clamp), rendered with
exactly three decimal places (conjunct 2), and the two scenario
instances: 1600×900 gives `"1.778"` and 100×2000 gives `"0.100"`
(conjuncts 3 and 4).  The `0 < height` hypothesis is the domain
guaranteed by the caller's `!img.naturalHeight` guard, where the exact
rational model coincides with JS arithmetic. -/
theorem C6_adaptive_ratio_value (width height : ℕ) (hh : 0 < height) :
    getSafeImageAspectRatio width height
      = toFixed3 (clampInterval ((width : ℚ) / (height : ℚ)))
    ∧ (∃ pre frac, getSafeImageAspectRatio width height = pre ++ "." ++ frac
        ∧ frac.length = 3)
    ∧ getSafeImageAspectRatio 1600 900 = "1.778"
    ∧ getSafeImageAspectRatio 100 2000 = "0.100" := by
  refine ⟨?_, ?_, ?_, ?_⟩
  · show toFixed3 (jsMax (1 / 10) (jsMin 10 ((width : ℚ) / (height : ℚ))))
      = toFixed3 (clampInterval ((width : ℚ) / (height : ℚ)))
    rw [jsMax_eq_max, jsMin_eq_min, max_min_eq_clampInterval]
  · rw [getSafeImageAspectRatio_frac width height hh]
    unfold getSafeImageAspectRatioFrac
    split
    · exact ⟨_, _, rfl, threeDigits_length _⟩
    · split
      · exact ⟨_, _, rfl, threeDigits_length _⟩
      · exact ⟨_, _, rfl, threeDigits_length _⟩
  · rw [getSafeImageAspectRatio_frac 1600 900 (by norm_num)]
    decide
  · rw [getSafeImageAspectRatio_frac 100 2000 (by norm_num)]
    decide

/-- C6 witness at natural size 1600×900. -/
theorem C6_witness :
    0 < 900
    ∧ (getSafeImageAspectRatio 1600 900
        = toFixed3 (clampInterval ((1600 : ℚ) / (900 : ℚ)))
      ∧ (∃ pre frac, getSafeImageAspectRatio 1600 900 = pre ++ "." ++ frac ∧ frac.length = 3)
      ∧ getSafeImageAspectRatio 1600 900 = "1.778"
      ∧ getSafeImageAspectRatio 100 2000 = "0.100") :=
  ⟨by norm_num, C6_adaptive_ratio_value 1600 900 (by norm_num)⟩

/-! ## C7 — fixed mode applies the configured constant -/

/-- C7: in fixed mode every gallery the normalizer processes (it
processes exactly the not-yet-marked ones) gets the constant ratio of the
configured setting on its custom property and on every media container —
the setting table being `square → "1"`, `portrait → "0.8"`,
`landscape → "1.778"` — with no dependence on image content (the
statement quantifies over all galleries, hence over all image data). -/
theorem C7_fixed_mode_constant (st c : String) (gs : List Gallery) (i : ℕ) (g : Gallery)
    (hc : getAspectRatioValue st = some c) (hg : gs[i]? = some g)
    (hup : g.processed = false) :
    (getAspectRatioValue "square" = some "1"
      ∧ getAspectRatioValue "portrait" = some "0.8"
      ∧ getAspectRatioValue "landscape" = some "1.778")
    ∧ (applyFixedAspectRatio (some st) gs)[i]? = some (applyAspectRatioToGallery g c)
    ∧ (applyAspectRatioToGallery g c).galleryProp = some c
    ∧ ∀ r ∈ (applyAspectRatioToGallery g c).containerRatios, r = some c := by
  refine ⟨⟨by decide, by decide, by decide⟩, ?_, rfl, ?_⟩
  · simp only [applyFixedAspectRatio, hc]
    rw [List.getElem?_map, hg]
    simp [hup]
  · intro r hr
    unfold applyAspectRatioToGallery at hr
    simp only [List.mem_map] at hr
    obtain ⟨_, _, h⟩ := hr
    exact h.symm

/-- C7 witness: setting `square`, one unprocessed gallery with two media
containers and an image the constant must ignore. -/
theorem C7_witness :
    getAspectRatioValue "square" = some "1"
    ∧ [({ productId := some "p", img := some ⟨true, 640, 480⟩, processed := false,
          galleryProp := none, containerRatios := [none, none] } : Gallery)][0]?
        = some { productId := some "p", img := some ⟨true, 640, 480⟩, processed := false,
                 galleryProp := none, containerRatios := [none, none] }
    ∧ ((getAspectRatioValue "square" = some "1"
        ∧ getAspectRatioValue "portrait" = some "0.8"
        ∧ getAspectRatioValue "landscape" = some "1.778")
      ∧ (applyFixedAspectRatio (some "square")
          [{ productId := some "p", img := some ⟨true, 640, 480⟩, processed := false,
             galleryProp := none, containerRatios := [none, none] }])[0]?
          = some (applyAspectRatioToGallery
              { productId := some "p", img := some ⟨true, 640, 480⟩, processed := false,
                galleryProp := none, containerRatios := [none, none] } "1")
      ∧ (applyAspectRatioToGallery
          { productId := some "p", img := some ⟨true, 640, 480⟩, processed := false,
            galleryProp := none, containerRatios := [none, none] } "1").galleryProp = some "1"
      ∧ ∀ r ∈ (applyAspectRatioToGallery
          { productId := some "p", img := some ⟨true, 640, 480⟩, processed := false,
            galleryProp := none, containerRatios := [none, none] } "1").containerRatios,
          r = some "1") :=
  ⟨by decide, by decide,
    C7_fixed_mode_constant "square" "1" _ 0 _ (by decide) (by decide) (by decide)⟩

/-! ## C9 — configuration errors -/

/-- A refs record in which only the `viewMorePrevious` sentinel is
missing. -/
def refsNoPrevSentinel : Refs :=
  { grid := true, viewMorePrevious := false, viewMoreNext := true, cards := true }

/-- C9 counterexample: with the `viewMorePrevious` ref absent (all other
refs present), `#observeViewMore` returns early with no observation —
`Except.ok false`, not a thrown error — so the claim that a missing
required ref throws at access time is false at this input. -/
theorem C9_counterexample :
    observeViewMore refsNoPrevSentinel = Except.ok false
    ∧ isErr (observeViewMore refsNoPrevSentinel) = false :=
  ⟨rfl, rfl⟩

/-- C9 amended: a missing (or empty) `section-id` attribute does throw at
access time, but an absent sentinel ref makes `#observeViewMore` a silent
no-op, and an absent `cards` ref makes `#getPage` return `undefined`
without throwing — the ref guards degrade silently instead of failing
loudly. -/
theorem C9_amended_config_errors (r : Refs) (attr : Option String)
    (cards : Option (List CardElem)) (d : Dir)
    (hr : r.viewMorePrevious = false ∨ r.viewMoreNext = false)
    (hattr : attr = none ∨ attr = some "") (hcards : cards = none) :
    (∃ msg, sectionId attr = Except.error msg)
    ∧ observeViewMore r = Except.ok false
    ∧ getPageRaw cards d = none := by
  refine ⟨?_, ?_, ?_⟩
  · rcases hattr with rfl | rfl
    · exact ⟨_, rfl⟩
    · exact ⟨_, rfl⟩
  · unfold observeViewMore
    rcases hr with h | h <;> rw [h] <;> simp
  · rw [hcards]
    rfl

/-- C9 witness: no sentinel-previous ref, no `section-id`, no cards. -/
theorem C9_witness :
    (refsNoPrevSentinel.viewMorePrevious = false ∨ refsNoPrevSentinel.viewMoreNext = false)
    ∧ ((none : Option String) = none ∨ (none : Option String) = some "")
    ∧ (none : Option (List CardElem)) = none
    ∧ ((∃ msg, sectionId none = Except.error msg)
      ∧ observeViewMore refsNoPrevSentinel = Except.ok false
      ∧ getPageRaw none Dir.next = none) :=
  ⟨Or.inl rfl, Or.inl rfl, rfl,
    C9_amended_config_errors refsNoPrevSentinel none none Dir.next (Or.inl rfl) (Or.inl rfl) rfl⟩

/-! ## C10 — `NaN` pages pass the range guard -/

/-- C10: a missing or non-numeric `page` data attribute on the extremal
card makes `#getPage` produce page `NaN` (conjunct 1; conjunct 2 grounds
"non-numeric"); `#shouldUsePage` accepts `NaN` against any bound since
both JS comparisons are false (conjunct 3); the URL then carries
`page=NaN` (conjunct 4) and `#fetchPage` goes on to issue that request
(conjunct 5); in general the guard accepts exactly the integer pages in
`[1, last-page]` plus every `NaN` page (conjunct 6). -/
theorem C10_nan_passes_guard (cs : List CardElem) (t : CardElem) (lp : JSNum)
    (s : CState) (d : Dir)
    (hlast : cs.getLast? = some t) (hattr : numberOfAttr t.dataPage = JSNum.nan)
    (hfetch : getPage d s.grid = some (mkPageDesc JSNum.nan)) :
    getPageRaw (some cs) Dir.next = some (mkPageDesc JSNum.nan)
    ∧ numberOfString "2x" = JSNum.nan
    ∧ shouldUsePage (some (mkPageDesc JSNum.nan)) lp = true
    ∧ (mkPageDesc JSNum.nan).urlPage = "NaN"
    ∧ (fetchPage d s).log = s.log ++ [LogEntry.requested d JSNum.nan]
    ∧ (∀ (p : JSNum) (L : ℤ) (u : String),
        shouldUsePage (some ⟨p, u⟩) (JSNum.int L) = true
          ↔ p = JSNum.nan ∨ ∃ n : ℤ, p = JSNum.int n ∧ 1 ≤ n ∧ n ≤ L) := by
  refine ⟨?_, by decide, ?_, rfl, ?_, ?_⟩
  · unfold getPageRaw
    dsimp only
    rw [hlast]
    simp [hattr, jadd1]
  · cases lp <;> rfl
  · have hguard : shouldUsePage (some (mkPageDesc JSNum.nan)) s.lastPage = true := by
      cases h : s.lastPage <;> rfl
    cases d
    · rw [fetchPage_issue_next s _ hfetch hguard]
      rfl
    · rw [fetchPage_issue_prev s _ hfetch hguard]
      rfl
  · intro p L u
    have hred : shouldUsePage (some ⟨p, u⟩) (JSNum.int L)
        = !(jgt p (JSNum.int L) || jlt p (JSNum.int 1)) := by
      unfold shouldUsePage
      cases h : (jgt p (JSNum.int L) || jlt p (JSNum.int 1)) <;> simp [h]
    rw [hred]
    cases p with
    | nan => simp [jgt, jlt]
    | int n =>
      simp only [jgt, jlt, Bool.not_or, Bool.and_eq_true, Bool.not_eq_true',
        decide_eq_false_iff_not, not_lt]
      constructor
      · rintro ⟨h1, h2⟩
        exact Or.inr ⟨n, rfl, by omega, by omega⟩
      · rintro (h | ⟨m, hm, h1, h2⟩)
        · exact JSNum.noConfusion h
        · injection hm with hm
          constructor <;> omega

/-- C10 witness: a single card with no `page` attribute, bound 5, and a
state whose grid carries that `NaN` page, in the next direction. -/
theorem C10_witness :
    ([({ dataPage := none } : CardElem)].getLast? = some { dataPage := none })
    ∧ numberOfAttr ({ dataPage := none } : CardElem).dataPage = JSNum.nan
    ∧ getPage Dir.next (initState [{ page := JSNum.nan, uid := 0 }] (JSNum.int 5)).grid
        = some (mkPageDesc JSNum.nan)
    ∧ (getPageRaw (some [{ dataPage := none }]) Dir.next = some (mkPageDesc JSNum.nan)
      ∧ numberOfString "2x" = JSNum.nan
      ∧ shouldUsePage (some (mkPageDesc JSNum.nan)) (JSNum.int 5) = true
      ∧ (mkPageDesc JSNum.nan).urlPage = "NaN"
      ∧ (fetchPage Dir.next (initState [{ page := JSNum.nan, uid := 0 }] (JSNum.int 5))).log
          = (initState [{ page := JSNum.nan, uid := 0 }] (JSNum.int 5)).log
            ++ [LogEntry.requested Dir.next JSNum.nan]
      ∧ (∀ (p : JSNum) (L : ℤ) (u : String),
          shouldUsePage (some ⟨p, u⟩) (JSNum.int L) = true
            ↔ p = JSNum.nan ∨ ∃ n : ℤ, p = JSNum.int n ∧ 1 ≤ n ∧ n ≤ L)) :=
  ⟨rfl, rfl, rfl,
    C10_nan_passes_guard [{ dataPage := none }] { dataPage := none } (JSNum.int 5)
      (initState [{ page := JSNum.nan, uid := 0 }] (JSNum.int 5)) Dir.next rfl rfl rfl⟩

/-! ## C4 — out-of-range pages are a complete no-op -/

/-- C4: when the computed descriptor's page is an integer outside
`[1, last-page]`, `#fetchPage` returns without issuing a request or
touching any state, and the render operation of that direction (the
body the sentinel intersection invokes) likewise returns the state
untouched — no fetch, no DOM insertion, no history push, no idle
scheduling. -/
theorem C4_out_of_range_noop (s : CState) (d : Dir) (desc : PageDesc) (n lp : ℤ)
    (hdesc : getPage d s.grid = some desc) (hp : desc.page = JSNum.int n)
    (hlp : s.lastPage = JSNum.int lp) (hout : n < 1 ∨ lp < n) :
    fetchPage d s = s ∧ step s (Ev.intersect d) = s := by
  have hguard : shouldUsePage (some desc) s.lastPage = false := by
    unfold shouldUsePage
    dsimp only
    rw [hp, hlp]
    have hcond : (jgt (JSNum.int n) (JSNum.int lp) || jlt (JSNum.int n) (JSNum.int 1)) = true := by
      unfold jgt jlt
      rcases hout with h | h
      · simp [decide_eq_true h]
      · simp [decide_eq_true h]
    rw [hcond]
    rfl
  refine ⟨fetchPage_guard d s desc hdesc hguard, ?_⟩
  cases d
  · exact renderNextPage_guard s desc hdesc hguard
  · exact renderPreviousPage_guard s desc hdesc hguard

/-- C4 witness: one card on page 3 with `last-page = 3`; the next
descriptor is page 4, out of range. -/
theorem C4_witness :
    (getPage Dir.next (initState [{ page := JSNum.int 3, uid := 0 }] (JSNum.int 3)).grid
        = some (mkPageDesc (JSNum.int 4)))
    ∧ (mkPageDesc (JSNum.int 4)).page = JSNum.int 4
    ∧ (initState [{ page := JSNum.int 3, uid := 0 }] (JSNum.int 3)).lastPage = JSNum.int 3
    ∧ ((3 : ℤ) < 4)
    ∧ (fetchPage Dir.next (initState [{ page := JSNum.int 3, uid := 0 }] (JSNum.int 3))
        = initState [{ page := JSNum.int 3, uid := 0 }] (JSNum.int 3)
      ∧ step (initState [{ page := JSNum.int 3, uid := 0 }] (JSNum.int 3)) (Ev.intersect Dir.next)
        = initState [{ page := JSNum.int 3, uid := 0 }] (JSNum.int 3)) :=
  ⟨rfl, rfl, rfl, by decide,
    C4_out_of_range_noop (initState [{ page := JSNum.int 3, uid := 0 }] (JSNum.int 3))
      Dir.next (mkPageDesc (JSNum.int 4)) 4 3 rfl rfl rfl (Or.inr (by decide))⟩

/-! ## C2 — two rapid previous intersections -/

/-- The two-rapid-previous scenario: all rendered cards are on page 2
with `last-page = 3`, so `connectedCallback` prefetches pages 3 and 1;
both previous intersections arrive before the prefetch of page 1
resolves, then it resolves with two cards. -/
def c2Grid : List Card := [{ page := JSNum.int 2, uid := 0 }, { page := JSNum.int 2, uid := 1 }]

/-- The events of the two-rapid-previous scenario. -/
def c2Events : List Ev :=
  [Ev.intersect Dir.prev, Ev.intersect Dir.prev, Ev.net Dir.prev (NetResult.ok [10, 11])]

/-- The state after the two-rapid-previous scenario. -/
def c2Final : CState := run (connect c2Grid (JSNum.int 3)) c2Events

/-- How many previous-direction renders suspended on the waiter. -/
def countSuspendedPrev (s : CState) : Nat :=
  (s.log.filter (fun e => match e with
    | LogEntry.suspended Dir.prev _ => true
    | _ => false)).length

/-- How many previous-direction renders were resumed by the waiter. -/
def countResumedPrev (s : CState) : Nat :=
  (s.log.filter (fun e => match e with
    | LogEntry.resumed Dir.prev _ => true
    | _ => false)).length

/-- How many network requests were issued for the previous page 1. -/
def countRequestedPrevOne (s : CState) : Nat :=
  (s.log.filter (fun e => match e with
    | LogEntry.requested Dir.prev p => p == JSNum.int 1
    | _ => false)).length

/-- C2 counterexample: in the scenario the claim describes, two render
invocations suspend on the waiter but only one is ever resumed — the
second suspension overwrote the first resolver, whose promise can no
longer be resolved — so "both render invocations that suspended on the
waiter are resumed" is false at this input. -/
theorem C2_counterexample :
    countSuspendedPrev c2Final = 2 ∧ countResumedPrev c2Final = 1 := by
  decide

/-- C2 amended: two rapid previous intersections before the first
prefetch resolves issue exactly one network request for that page; both
invocations suspend on the waiter, but only the most recently suspended
one is resumed (the earlier resolver was overwritten and its render
stalls forever); the resumed render observes the resolved cached
content and prepends exactly it, and resolving clears the waiter slot. -/
theorem C2_amended_single_request_last_waiter :
    countRequestedPrevOne c2Final = 1
    ∧ countSuspendedPrev c2Final = 2
    ∧ countResumedPrev c2Final = 1
    ∧ lookupPage c2Final.pages (JSNum.int 1)
        = some (some [{ page := JSNum.int 1, uid := 10 }, { page := JSNum.int 1, uid := 11 }])
    ∧ c2Final.grid
        = [{ page := JSNum.int 1, uid := 10 }, { page := JSNum.int 1, uid := 11 }] ++ c2Grid
    ∧ c2Final.waitPrev = none := by
  decide

end PaginatedListSpec
